import Mathlib

/-!
Verification development for the claudex backend (streaming, queueing,
sandbox provider and transport layers). Python sources are shallowly
embedded as executable Lean definitions; machine strings are `String`
(logically `List Char`), Redis stream logs are lists of entries, and
stateful services are modelled by explicit state passing.
-/

namespace Claudex

/-! ### Stream events and queue-injection eligibility
(`app/services/streaming/queue_injector.py`, `orchestrator.py`) -/

/-- Python truthiness of an optional string: `None` and the empty string are
falsy, every other string is truthy. -/
def pyTruthy : Option String → Bool
  | none => false
  | some s => !s.isEmpty

/-- The tool record carried by a stream event (`event["tool"]`), restricted to
the only field `should_try_injection` reads: its optional `parent_id`
(`tool.get("parent_id")`; an absent key is `none`). -/
structure ToolRecord where
  parent_id : Option String
deriving Repr, DecidableEq

/-- A stream event as inspected by the queue injector: `event.get("type")`
(an absent key is `none`) and `event.get("tool", ...)` (an absent key is
`none`, standing for the default empty dict). Other payload fields are not
read by the embedded code and are omitted. -/
structure StreamEvent where
  etype : Option String
  tool : Option ToolRecord
deriving Repr, DecidableEq

/-- `QueueInjector.should_try_injection` (queue_injector.py lines 127-137):
injection is attempted only after a `tool_completed` event whose tool record
has no truthy `parent_id`. An absent `tool` key defaults to the empty dict,
whose `parent_id` lookup is `None` (falsy). -/
def should_try_injection (event : StreamEvent) : Bool :=
  if event.etype != some "tool_completed" then false
  else
    match event.tool with
    | none => true
    | some tool => if pyTruthy tool.parent_id then false else true

/-- `QueueInjector._prepare_user_prompt` (queue_injector.py lines 111-125):
wraps the queued content, listing attachment basenames first when present.
Attachments are carried as their `file_path` strings. -/
def prepare_user_prompt (content : String) (attachments : List String) : String :=
  if attachments.isEmpty then "<user_prompt>" ++ content ++ "</user_prompt>"
  else
    let files_list := String.intercalate "\n"
      (attachments.map (fun att => "- /home/user/" ++ ((att.splitOn "/").getLastD "")))
    "<user_attachments>\nUser uploaded the following files\n" ++ files_list ++
      "\n</user_attachments>\n\n" ++ "<user_prompt>" ++ content ++ "</user_prompt>"

/-- The orchestrator state touched by the injection branch of
`StreamOrchestrator._process_stream_events`: the accumulated events of the
current assistant message, the queued-message slot (at most one pending
message, its content and attachment paths), and the inputs written into the
transport so far. -/
structure OrchestratorState where
  events_acc : List StreamEvent
  queued : Option (String × List String)
  transport_writes : List String
deriving Repr, DecidableEq

/-- One iteration of the event loop of
`StreamOrchestrator._process_stream_events` (orchestrator.py lines 125-164),
restricted to its injection-relevant effects: the event is appended to the
accumulator; only under the `should_try_injection` guard does the
orchestrator pop the queued message (`QueueService.pop_next_message` via
`QueueInjector.check_and_inject`) and write the prepared prompt into the
transport, clearing the accumulator for the new assistant message. -/
def process_stream_event (st : OrchestratorState) (event : StreamEvent) :
    OrchestratorState :=
  let st1 : OrchestratorState := { st with events_acc := st.events_acc ++ [event] }
  if should_try_injection event then
    match st1.queued with
    | none => st1
    | some (content, atts) =>
        { events_acc := []
          queued := none
          transport_writes := st1.transport_writes ++ [prepare_user_prompt content atts] }
  else st1

/-- C3: `should_try_injection` returns true exactly for events of type
`tool_completed` whose tool record has an absent or falsy `parent_id`; and
for every event with a truthy `tool.parent_id` the orchestrator's event step
neither pops the queued message nor writes into the transport. -/
theorem injection_only_for_top_level_tool_completions :
    (∀ event : StreamEvent,
      should_try_injection event = true ↔
        (event.etype = some "tool_completed" ∧
          (∀ tool : ToolRecord, event.tool = some tool → pyTruthy tool.parent_id = false))) ∧
    (∀ (st : OrchestratorState) (event : StreamEvent) (tool : ToolRecord),
      event.tool = some tool → pyTruthy tool.parent_id = true →
        (process_stream_event st event).queued = st.queued ∧
        (process_stream_event st event).transport_writes = st.transport_writes) := by
  constructor
  · intro event
    obtain ⟨etype, tool⟩ := event
    by_cases h : etype = some "tool_completed"
    · subst h
      cases tool with
      | none => simp [should_try_injection]
      | some t =>
        by_cases hp : pyTruthy t.parent_id = true
        · simp [should_try_injection, hp]
        · have hp2 : pyTruthy t.parent_id = false := by
            simpa using hp
          simp [should_try_injection, hp2]
    · simp [should_try_injection, bne_iff_ne, h]
  · intro st event tool htool hp
    have hnot : should_try_injection event = false := by
      by_cases h : event.etype = some "tool_completed"
      · simp [should_try_injection, h, htool, hp]
      · simp [should_try_injection, bne_iff_ne, h]
    simp [process_stream_event, hnot]

/-- Witness for C3 at a concrete nested tool completion: an event of type
`tool_completed` whose tool carries `parent_id = "toolu_parent"` leaves both
the queued slot and the transport writes untouched. -/
theorem injection_only_for_top_level_tool_completions_witness :
    (process_stream_event ⟨[], some ("queued msg", []), []⟩
        ⟨some "tool_completed", some ⟨some "toolu_parent"⟩⟩).queued =
      some ("queued msg", []) ∧
    (process_stream_event ⟨[], some ("queued msg", []), []⟩
        ⟨some "tool_completed", some ⟨some "toolu_parent"⟩⟩).transport_writes = [] :=
  injection_only_for_top_level_tool_completions.2
    ⟨[], some ("queued msg", []), []⟩
    ⟨some "tool_completed", some ⟨some "toolu_parent"⟩⟩
    ⟨some "toolu_parent"⟩ rfl (by decide)

/-! ### Process-stream terminal outcome
(`StreamOrchestrator.process_stream`, orchestrator.py lines 70-113) -/

/-- `MessageStreamStatus` (app/models/db_models/enums.py). -/
inductive MessageStreamStatus where
  | in_progress
  | completed
  | failed
  | interrupted
deriving Repr, DecidableEq

/-- How `process_stream` leaves the caller: a normal return of the outcome,
the distinguished `StreamCancelled` signal, or a propagated
`ClaudeAgentException`. -/
inductive ProcessStreamExit where
  | finished
  | raised_stream_cancelled
  | raised_agent_exception
deriving Repr, DecidableEq

/-- The observable result of `StreamOrchestrator.process_stream`: how it
exits, the stream status written to the assistant message (when an assistant
message id is present), and whether an error event was published. -/
structure ProcessStreamResult where
  exitKind : ProcessStreamExit
  message_status : Option MessageStreamStatus
  published_error : Bool
deriving Repr, DecidableEq

/-- `StreamOrchestrator.process_stream` (orchestrator.py lines 70-113) for a
stream whose event loop ends without a mid-stream exception, having
accumulated `events`. If cancellation was observed the message is marked
INTERRUPTED and `StreamCancelled` is raised; otherwise, with zero events a
`ClaudeAgentException` is raised (caught by the generic handler, which
publishes an error and marks the message FAILED, then re-raises); with at
least one event the stream finalizes with COMPLETED status. Status writes
are skipped when no assistant message id is attached to the context. -/
def process_stream (has_assistant_id was_cancelled : Bool)
    (events : List StreamEvent) : ProcessStreamResult :=
  if was_cancelled then
    ⟨.raised_stream_cancelled,
      if has_assistant_id then some .interrupted else none, false⟩
  else if events.isEmpty then
    ⟨.raised_agent_exception,
      if has_assistant_id then some .failed else none, true⟩
  else
    ⟨.finished, if has_assistant_id then some .completed else none, false⟩

/-- C4: with no cancellation observed, an empty accumulated event list makes
`process_stream` raise a `ClaudeAgentException` (the message is marked
FAILED, not COMPLETED), while a non-empty event list finalizes the message
as COMPLETED with a normal return. -/
theorem process_stream_empty_faults_nonempty_completes :
    (∀ events : List StreamEvent, events = [] →
      process_stream true false events =
        ⟨.raised_agent_exception, some .failed, true⟩ ∧
      (process_stream true false events).message_status ≠ some .completed) ∧
    (∀ events : List StreamEvent, events ≠ [] →
      process_stream true false events = ⟨.finished, some .completed, false⟩) := by
  constructor
  · intro events h
    subst h
    exact ⟨rfl, by decide⟩
  · intro events h
    have : events.isEmpty = false := by
      simpa [List.isEmpty_iff] using h
    simp [process_stream, this]

/-- Witness for C4: a stream that ended with zero events raises the agent
exception and marks the message FAILED, while the same stream with one
content event completes normally. -/
theorem process_stream_empty_faults_nonempty_completes_witness :
    process_stream true false [] =
      ⟨.raised_agent_exception, some .failed, true⟩ ∧
    process_stream true false [⟨some "content", none⟩] =
      ⟨.finished, some .completed, false⟩ :=
  ⟨(process_stream_empty_faults_nonempty_completes.1 [] rfl).1,
    process_stream_empty_faults_nonempty_completes.2 [⟨some "content", none⟩]
      (by decide)⟩

/-! ### Checkpoint retention
(`SandboxProvider.list_checkpoints`, `_cleanup_old_checkpoints`,
`create_checkpoint`; `app/services/sandbox/provider.py`) -/

/-- `MAX_CHECKPOINTS_PER_SANDBOX` (app/constants.py line 28). -/
def MAX_CHECKPOINTS_PER_SANDBOX : Nat := 20

/-- One checkpoint directory under `CHECKPOINT_BASE_DIR`: its directory name
(the message id) and its stat creation timestamp. Timestamps are seconds
since the epoch; `list_checkpoints` compares their ISO renderings, which
order exactly as the underlying numbers do, so `created_at` is kept
numeric. -/
structure CheckpointInfo where
  message_id : String
  created_at : Nat
deriving Repr, DecidableEq

/-- Newest-first comparison used by `list_checkpoints`
(`checkpoints.sort(key=lambda x: x.created_at, reverse=True)`). -/
def byNewest (a b : CheckpointInfo) : Prop := b.created_at ≤ a.created_at

instance : DecidableRel byNewest := fun a b => Nat.decLe b.created_at a.created_at

instance : IsTotal CheckpointInfo byNewest :=
  ⟨fun a b => (Nat.le_total b.created_at a.created_at).imp id id⟩

instance : IsTrans CheckpointInfo byNewest :=
  ⟨fun _ _ _ hab hbc => Nat.le_trans hbc hab⟩

/-- Strictly-newer comparison; on a store with pairwise-distinct timestamps
a newest-first sorted listing is sorted for this strict order too. -/
def strictNewest (a b : CheckpointInfo) : Prop := b.created_at < a.created_at

instance : IsTrans CheckpointInfo strictNewest :=
  ⟨fun _ _ _ hab hbc => Nat.lt_trans hbc hab⟩

instance : IsAntisymm CheckpointInfo strictNewest :=
  ⟨fun _ _ h1 h2 => absurd (Nat.lt_trans h1 h2) (Nat.lt_irrefl _)⟩

/-- `SandboxProvider.list_checkpoints` (provider.py lines 392-436): reads the
checkpoint directories with their timestamps and sorts them newest-first.
Python's `list.sort` is a stable sort; it is modelled by the (equally
stable) insertion sort, with which it agrees elementwise. -/
def list_checkpoints (store : List CheckpointInfo) : List CheckpointInfo :=
  store.insertionSort byNewest

/-- `SandboxProvider._cleanup_old_checkpoints` (provider.py lines 118-134):
with at most `MAX_CHECKPOINTS_PER_SANDBOX` checkpoints nothing is deleted;
otherwise every checkpoint beyond the newest
`MAX_CHECKPOINTS_PER_SANDBOX` in the newest-first listing is deleted
(`rm -rf` of its directory), in listing order. Returns the surviving store
and the deletion sequence. -/
def cleanup_old_checkpoints (store : List CheckpointInfo) :
    List CheckpointInfo × List CheckpointInfo :=
  let checkpoints := list_checkpoints store
  if checkpoints.length ≤ MAX_CHECKPOINTS_PER_SANDBOX then (store, [])
  else
    let to_delete := checkpoints.drop MAX_CHECKPOINTS_PER_SANDBOX
    (store.filter (fun c => to_delete.all (fun d => d.message_id != c.message_id)),
      to_delete)

/-- `SandboxProvider.create_checkpoint` (provider.py lines 316-361): rsync
materialises the new checkpoint directory (named by the message id, stamped
with the current time) and `_cleanup_old_checkpoints` then prunes. Returns
the surviving store and the deletion sequence. -/
def create_checkpoint (store : List CheckpointInfo) (message_id : String)
    (now : Nat) : List CheckpointInfo × List CheckpointInfo :=
  cleanup_old_checkpoints (store ++ [CheckpointInfo.mk message_id now])

/-- A newest-first sorted listing of a store with pairwise-distinct
timestamps is strictly sorted. -/
theorem sorted_strictNewest_of_nodup {l : List CheckpointInfo}
    (hs : List.Sorted byNewest l)
    (hd : (l.map CheckpointInfo.created_at).Nodup) :
    List.Sorted strictNewest l := by
  have hd2 : l.Pairwise (fun a b => a.created_at ≠ b.created_at) :=
    List.pairwise_map.mp hd
  exact (hs.and hd2).imp (fun h => Nat.lt_of_le_of_ne h.1 (Ne.symm h.2))

/-- Filtering a checkpoint listing by "not scheduled for deletion" (where the
deletion set is everything beyond position `n` of listing `S` itself) keeps
exactly the first `n` entries, provided directory names are unique. -/
theorem filter_not_deleted_eq_take (S : List CheckpointInfo) (n : Nat)
    (hids : (S.map CheckpointInfo.message_id).Nodup) :
    S.filter (fun c => (S.drop n).all (fun d => d.message_id != c.message_id))
      = S.take n := by
  have hpw : S.Pairwise (fun a b => a.message_id ≠ b.message_id) :=
    List.pairwise_map.mp hids
  have hpw2 : (S.take n ++ S.drop n).Pairwise
      (fun a b => a.message_id ≠ b.message_id) := by
    rw [List.take_append_drop]; exact hpw
  obtain ⟨-, -, hcross⟩ := List.pairwise_append.mp hpw2
  have h1 : (S.take n).filter
      (fun c => (S.drop n).all (fun d => d.message_id != c.message_id))
        = S.take n := by
    apply List.filter_eq_self.mpr
    intro c hc
    apply List.all_eq_true.mpr
    intro d hd
    simpa [bne_iff_ne] using (hcross c hc d hd).symm
  have h2 : (S.drop n).filter
      (fun c => (S.drop n).all (fun d => d.message_id != c.message_id)) = [] := by
    apply List.filter_eq_nil_iff.mpr
    intro c hc hall
    have hself := List.all_eq_true.mp hall c hc
    simp at hself
  have hstep : S.filter
      (fun c => (S.drop n).all (fun d => d.message_id != c.message_id))
      = (S.take n).filter
          (fun c => (S.drop n).all (fun d => d.message_id != c.message_id)) ++
        (S.drop n).filter
          (fun c => (S.drop n).all (fun d => d.message_id != c.message_id)) := by
    rw [← List.filter_append, List.take_append_drop]
  rw [hstep, h1, h2, List.append_nil]

/-- C7 (amended): after `create_checkpoint` at most
`MAX_CHECKPOINTS_PER_SANDBOX` checkpoints remain; the pruning step deletes
exactly those beyond the newest `MAX_CHECKPOINTS_PER_SANDBOX`, iterating
over them in the newest-first listing order (not oldest-first); and
`list_checkpoints` returns the survivors newest-first by creation time.
Hypotheses: creation timestamps and directory names are pairwise distinct
across the store including the new checkpoint. -/
theorem checkpoint_retention_cap (store : List CheckpointInfo)
    (message_id : String) (now : Nat)
    (hts : ((store ++ [CheckpointInfo.mk message_id now]).map CheckpointInfo.created_at).Nodup)
    (hids : ((store ++ [CheckpointInfo.mk message_id now]).map CheckpointInfo.message_id).Nodup) :
    (∀ s : List CheckpointInfo, List.Sorted byNewest (list_checkpoints s)) ∧
    (create_checkpoint store message_id now).1.length
        ≤ MAX_CHECKPOINTS_PER_SANDBOX ∧
    list_checkpoints (create_checkpoint store message_id now).1 =
      (list_checkpoints (store ++ [CheckpointInfo.mk message_id now])).take
        MAX_CHECKPOINTS_PER_SANDBOX ∧
    (create_checkpoint store message_id now).2 =
      (list_checkpoints (store ++ [CheckpointInfo.mk message_id now])).drop
        MAX_CHECKPOINTS_PER_SANDBOX := by
  refine ⟨fun s => List.sorted_insertionSort byNewest s, ?_⟩
  set full := store ++ [CheckpointInfo.mk message_id now] with hfull
  set S := list_checkpoints full with hS
  have hSperm : S.Perm full := List.perm_insertionSort byNewest full
  have hSsorted : List.Sorted byNewest S := List.sorted_insertionSort byNewest full
  have hSts : (S.map CheckpointInfo.created_at).Nodup :=
    ((hSperm.map CheckpointInfo.created_at).nodup_iff).mpr hts
  have hSids : (S.map CheckpointInfo.message_id).Nodup :=
    ((hSperm.map CheckpointInfo.message_id).nodup_iff).mpr hids
  by_cases hlen : S.length ≤ MAX_CHECKPOINTS_PER_SANDBOX
  · have hres : create_checkpoint store message_id now = (full, []) := by
      rw [create_checkpoint, cleanup_old_checkpoints, ← hfull, ← hS, if_pos hlen]
    rw [hres]
    refine ⟨?_, ?_, ?_⟩
    · simpa [hSperm.length_eq] using hlen
    · rw [List.take_of_length_le hlen]
    · rw [List.drop_eq_nil_of_le hlen]
  · have hres : create_checkpoint store message_id now =
        (full.filter (fun c => (S.drop MAX_CHECKPOINTS_PER_SANDBOX).all
            (fun d => d.message_id != c.message_id)),
          S.drop MAX_CHECKPOINTS_PER_SANDBOX) := by
      rw [create_checkpoint, cleanup_old_checkpoints, ← hfull, ← hS, if_neg hlen]
    rw [hres]
    have hfilter : S.filter (fun c => (S.drop MAX_CHECKPOINTS_PER_SANDBOX).all
        (fun d => d.message_id != c.message_id)) = S.take MAX_CHECKPOINTS_PER_SANDBOX :=
      filter_not_deleted_eq_take S MAX_CHECKPOINTS_PER_SANDBOX hSids
    have hpermsurv : (full.filter (fun c => (S.drop MAX_CHECKPOINTS_PER_SANDBOX).all
        (fun d => d.message_id != c.message_id))).Perm
          (S.take MAX_CHECKPOINTS_PER_SANDBOX) := by
      rw [← hfilter]
      exact (hSperm.filter _).symm
    refine ⟨?_, ?_, rfl⟩
    · rw [hpermsurv.length_eq, List.length_take]
      exact Nat.min_le_left _ _
    · have hsortedL : List.Sorted byNewest (list_checkpoints
          (full.filter (fun c => (S.drop MAX_CHECKPOINTS_PER_SANDBOX).all
            (fun d => d.message_id != c.message_id)))) :=
        List.sorted_insertionSort byNewest _
      have hsortedR : List.Sorted byNewest (S.take MAX_CHECKPOINTS_PER_SANDBOX) :=
        List.Pairwise.sublist (List.take_sublist _ _) hSsorted
      have hpermLR : (list_checkpoints
          (full.filter (fun c => (S.drop MAX_CHECKPOINTS_PER_SANDBOX).all
            (fun d => d.message_id != c.message_id)))).Perm
          (S.take MAX_CHECKPOINTS_PER_SANDBOX) :=
        (List.perm_insertionSort byNewest _).trans hpermsurv
      have htsR : ((S.take MAX_CHECKPOINTS_PER_SANDBOX).map
          CheckpointInfo.created_at).Nodup :=
        List.Nodup.sublist (List.Sublist.map _ (List.take_sublist _ _)) hSts
      have htsL : ((list_checkpoints
          (full.filter (fun c => (S.drop MAX_CHECKPOINTS_PER_SANDBOX).all
            (fun d => d.message_id != c.message_id)))).map
          CheckpointInfo.created_at).Nodup :=
        ((hpermLR.map CheckpointInfo.created_at).nodup_iff).mpr htsR
      exact List.eq_of_perm_of_sorted hpermLR
        (sorted_strictNewest_of_nodup hsortedL htsL)
        (sorted_strictNewest_of_nodup hsortedR htsR)

/-- Witness for C7 at a concrete two-checkpoint store: creating a second
checkpoint keeps both (no pruning below the cap) and lists them
newest-first. -/
theorem checkpoint_retention_cap_witness :
    (create_checkpoint [⟨"a", 1⟩] "b" 2).1.length ≤ MAX_CHECKPOINTS_PER_SANDBOX ∧
    list_checkpoints (create_checkpoint [⟨"a", 1⟩] "b" 2).1 =
      (list_checkpoints [⟨"a", 1⟩, ⟨"b", 2⟩]).take MAX_CHECKPOINTS_PER_SANDBOX :=
  ⟨(checkpoint_retention_cap [⟨"a", 1⟩] "b" 2 (by decide) (by decide)).2.1,
    (checkpoint_retention_cap [⟨"a", 1⟩] "b" 2 (by decide) (by decide)).2.2.1⟩

/-- Example store of 22 checkpoints with creation timestamps 1..22. -/
def exampleCheckpointStore : List CheckpointInfo :=
  (List.range 22).map (fun i => ⟨"m" ++ toString (i + 1), i + 1⟩)

/-- C7 counterexample: on a sandbox holding 22 checkpoints with timestamps
1..22, the pruning pass deletes the two excess checkpoints in the order
[created_at 2, created_at 1] — the newest of the pruned first — so the
claimed oldest-first deletion order is false on this input. -/
theorem checkpoint_prune_order_counterexample :
    ((cleanup_old_checkpoints exampleCheckpointStore).2.map
        CheckpointInfo.created_at = [2, 1]) ∧
    ¬ ((cleanup_old_checkpoints exampleCheckpointStore).2.map
        CheckpointInfo.created_at = [1, 2]) := by
  constructor
  · decide
  · decide

/-! ### Queued-message upsert
(`QueueService.upsert_message`, `app/services/queue.py` lines 50-109) -/

/-- The queued-message record stored (JSON-encoded) under the chat's queue
key. Attachment dicts are carried as opaque values (their identity is all
`upsert_message` depends on). -/
structure QueuedMessageData where
  qid : String
  content : String
  model_id : String
  permission_mode : String
  thinking_mode : Option String
  queued_at : String
  attachments : Option (List String)
deriving Repr, DecidableEq

/-- The `QueueUpsertResponse` returned by `upsert_message`. -/
structure QueueUpsertResponse where
  rid : String
  created : Bool
  content : String
  attachments : Option (List String)
deriving Repr, DecidableEq

/-- Python truthiness of the optional attachments argument (`if attachments:`
— `None` and the empty list are falsy). -/
def attachmentsTruthy : Option (List String) → Bool
  | none => false
  | some l => !l.isEmpty

/-- The body of one `upsert_message` transaction (queue.py lines 64-109),
given the value read under WATCH. An existing record keeps its id, gets the
new content appended after a newline separator, and (when new attachments
are truthy) gets them appended to its existing attachments
(`data.get("attachments") or []`); otherwise a fresh record is stored under
a new id. Returns the stored record and the response. -/
def upsert_attempt (existing : Option QueuedMessageData) (new_id : String)
    (content model_id permission_mode : String) (thinking_mode : Option String)
    (queued_at : String) (attachments : Option (List String)) :
    QueuedMessageData × QueueUpsertResponse :=
  match existing with
  | some data =>
      let data1 : QueuedMessageData :=
        { data with content := data.content ++ "\n" ++ content }
      let data2 : QueuedMessageData :=
        if attachmentsTruthy attachments then
          { data1 with
              attachments := some (data.attachments.getD [] ++ attachments.getD []) }
        else data1
      (data2, ⟨data.qid, false, data2.content, data2.attachments⟩)
  | none =>
      let fresh : QueuedMessageData :=
        ⟨new_id, content, model_id, permission_mode, thinking_mode, queued_at,
          attachments⟩
      (fresh, ⟨new_id, true, content, attachments⟩)

/-- The error raised when an optimistic-concurrency transaction loses the
WATCH/MULTI race (redis `WatchError`). -/
inductive QueueError where
  | watch_conflict
deriving Repr, DecidableEq

/-- The tenacity retry combinator configured on `upsert_message`
(`retry_if_exception_type(WatchError)`, `stop_after_attempt`, `reraise`):
attempt `idx` is run; a `WatchError` (modelled as `attempt idx = none`) is
retried until the attempt budget is exhausted, at which point the conflict
error is re-raised. -/
def run_with_watch_retry (attempt : Nat → Option α) : Nat → Nat →
    Except QueueError α
  | _, 0 => .error .watch_conflict
  | idx, fuel + 1 =>
      match attempt idx with
      | some r => .ok r
      | none =>
          match fuel with
          | 0 => .error .watch_conflict
          | f + 1 => run_with_watch_retry attempt (idx + 1) (f + 1)

/-- `QueueService.upsert_message` under concurrent interference: attempt `k`
loses the optimistic-concurrency race exactly when `conflicts k` is true (a
conflicting writer touched the key between WATCH and EXEC); a winning
attempt reads `existing` and commits `upsert_attempt`. `stop_after_attempt`
is 5 (queue.py lines 50-54). -/
def upsert_message (conflicts : Nat → Bool)
    (existing : Option QueuedMessageData) (new_id : String)
    (content model_id permission_mode : String) (thinking_mode : Option String)
    (queued_at : String) (attachments : Option (List String)) :
    Except QueueError (QueuedMessageData × QueueUpsertResponse) :=
  run_with_watch_retry
    (fun k =>
      if conflicts k then none
      else some (upsert_attempt existing new_id content model_id
        permission_mode thinking_mode queued_at attachments))
    0 5

/-- A run whose first `fuel` attempts all conflict re-raises the conflict
error. -/
theorem run_with_watch_retry_all_conflict (attempt : Nat → Option α) :
    ∀ fuel idx, (∀ i, i < fuel → attempt (idx + i) = none) →
      run_with_watch_retry attempt idx fuel = .error .watch_conflict := by
  intro fuel
  induction fuel with
  | zero => intro idx _; rfl
  | succ f ih =>
    intro idx h
    have h0 : attempt idx = none := by simpa using h 0 (Nat.succ_pos f)
    cases f with
    | zero => simp [run_with_watch_retry, h0]
    | succ f2 =>
      have htail : ∀ i, i < f2 + 1 → attempt (idx + 1 + i) = none := by
        intro i hi
        have := h (i + 1) (by omega)
        simpa [Nat.add_assoc, Nat.add_comm 1 i] using this
      simp [run_with_watch_retry, h0, ih (idx + 1) htail]

/-- A run whose first success happens at relative attempt `j` within the
budget returns that success. -/
theorem run_with_watch_retry_first_success (attempt : Nat → Option α) :
    ∀ fuel idx j r, j < fuel → (∀ i, i < j → attempt (idx + i) = none) →
      attempt (idx + j) = some r →
      run_with_watch_retry attempt idx fuel = .ok r := by
  intro fuel
  induction fuel with
  | zero => intro idx j r hj; omega
  | succ f ih =>
    intro idx j r hj hbefore hsucc
    cases j with
    | zero =>
      have h0 : attempt idx = some r := by simpa using hsucc
      cases f with
      | zero => simp [run_with_watch_retry, h0]
      | succ f2 => simp [run_with_watch_retry, h0]
    | succ j2 =>
      have h0 : attempt idx = none := by simpa using hbefore 0 (Nat.succ_pos j2)
      cases f with
      | zero => omega
      | succ f2 =>
        have htail : ∀ i, i < j2 → attempt (idx + 1 + i) = none := by
          intro i hi
          have := hbefore (i + 1) (by omega)
          simpa [Nat.add_assoc, Nat.add_comm 1 i] using this
        have hsucc2 : attempt (idx + 1 + j2) = some r := by
          simpa [Nat.add_assoc, Nat.add_comm 1 j2] using hsucc
        have hrec := ih (idx + 1) j2 r (by omega) htail hsucc2
        calc run_with_watch_retry attempt idx (f2 + 1 + 1)
            = run_with_watch_retry attempt (idx + 1) (f2 + 1) := by
              simp [run_with_watch_retry, h0]
          _ = .ok r := hrec

/-- C9: submitting while a message is already queued appends rather than
overwrites — the stored record keeps the existing id (`created = False`),
its content becomes the old content, a newline separator, then the new
content, and truthy new attachments are appended to the existing ones — and
the watch/multi read-modify-write is retried on conflict at most 5 attempts,
after which the conflict error is re-raised: if every one of the first 5
attempts conflicts the caller sees the `WatchError`, while a first success
at attempt `j < 5` commits the append. -/
theorem upsert_appends_and_retries_bounded (data : QueuedMessageData)
    (new_id content model_id permission_mode : String)
    (thinking_mode : Option String) (queued_at : String)
    (attachments : Option (List String)) (conflicts : Nat → Bool) :
    ((upsert_attempt (some data) new_id content model_id permission_mode
        thinking_mode queued_at attachments).2.created = false ∧
      (upsert_attempt (some data) new_id content model_id permission_mode
        thinking_mode queued_at attachments).2.rid = data.qid ∧
      (upsert_attempt (some data) new_id content model_id permission_mode
        thinking_mode queued_at attachments).1.content =
          data.content ++ "\n" ++ content ∧
      (upsert_attempt (some data) new_id content model_id permission_mode
        thinking_mode queued_at attachments).1.attachments =
        (if attachmentsTruthy attachments then
            some ((data.attachments.getD []) ++ attachments.getD [])
          else data.attachments)) ∧
    ((∀ i, i < 5 → conflicts i = true) →
      upsert_message conflicts (some data) new_id content model_id
        permission_mode thinking_mode queued_at attachments =
          .error .watch_conflict) ∧
    (∀ j, j < 5 → (∀ i, i < j → conflicts i = true) → conflicts j = false →
      upsert_message conflicts (some data) new_id content model_id
        permission_mode thinking_mode queued_at attachments =
          .ok (upsert_attempt (some data) new_id content model_id
            permission_mode thinking_mode queued_at attachments)) := by
  refine ⟨?_, ?_, ?_⟩
  · by_cases ha : attachmentsTruthy attachments = true
    · simp [upsert_attempt, ha]
    · have ha2 : attachmentsTruthy attachments = false := by simpa using ha
      simp [upsert_attempt, ha2]
  · intro hc
    apply run_with_watch_retry_all_conflict
    intro i hi
    simp [hc i (by simpa using hi)]
  · intro j hj hbefore hj2
    apply run_with_watch_retry_first_success _ 5 0 j _ hj
    · intro i hi
      simp [hbefore i hi]
    · simp [hj2]

/-- Witness for C9: with a queued record of content "first" and a concurrent
writer that wins the first race only, the second attempt commits
"first\nsecond" under the original id with `created = false`. -/
theorem upsert_appends_and_retries_bounded_witness :
    upsert_message (fun k => k == 0)
        (some ⟨"id0", "first", "m1", "auto", none, "t0", none⟩)
        "id1" "second" "m2" "auto" none "t1" none =
      .ok (⟨"id0", "first\nsecond", "m1", "auto", none, "t0", none⟩,
        ⟨"id0", false, "first\nsecond", none⟩) := by
  have h := (upsert_appends_and_retries_bounded
    ⟨"id0", "first", "m1", "auto", none, "t0", none⟩
    "id1" "second" "m2" "auto" none "t1" none (fun k => k == 0)).2.2 1
    (by decide) (by decide) (by decide)
  rw [h]
  congr 1

/-! ### Path normalisation for provider file operations
(`SandboxProvider.normalize_path`, `LocalDockerProvider.write_file` /
`read_file`; `app/services/sandbox/provider.py`) -/

/-- Python `str.split("/")`: splits on every slash, keeping empty pieces, and
yields one (possibly empty) piece even for the empty string. -/
def splitSlash : List Char → List (List Char)
  | [] => [[]]
  | c :: cs =>
      let rest := splitSlash cs
      if c = '/' then [] :: rest
      else
        match rest with
        | [] => [[c]]
        | h :: t => (c :: h) :: t

/-- `posixpath.normpath` on character lists, following CPython: an empty path
is "."; one leading slash (or three or more) gives one root slash, exactly
two give two; components "" and "." are dropped; ".." pops the previous
component unless the path is relative with nothing to pop (kept) or the
previous component is itself ".." (kept) or the path is absolute at its root
(dropped). -/
def normpathChars (path : List Char) : List Char :=
  if path = [] then ['.']
  else
    let initialSlashes : Nat :=
      if path.take 1 = ['/'] then
        if path.take 2 = ['/', '/'] ∧ path.take 3 ≠ ['/', '/', '/'] then 2 else 1
      else 0
    let comps := splitSlash path
    let newComps := comps.foldl (fun acc comp =>
      if comp = [] ∨ comp = ['.'] then acc
      else if comp ≠ ['.', '.'] ∨ (initialSlashes = 0 ∧ acc = []) ∨
          acc.getLast? = some ['.', '.'] then acc ++ [comp]
      else if acc ≠ [] then acc.dropLast
      else acc) []
    let res := List.replicate initialSlashes '/' ++ List.intercalate ['/'] newComps
    if res = [] then ['.'] else res

/-- The root recognised by `pathlib.PurePosixPath`: exactly two leading
slashes are preserved as a double-slash root; one, or three or more,
collapse to a single root slash; no leading slash means no root. -/
def posixRoot (path : List Char) : List Char :=
  if path.take 1 = ['/'] then
    if path.take 2 = ['/', '/'] ∧ path.take 3 ≠ ['/', '/', '/'] then ['/', '/']
    else ['/']
  else []

/-- `str(PurePosixPath(s))`: the root followed by the components of `s` that
are neither empty nor ".", joined by slashes; the empty relative path
renders as ".". -/
def purePosixStr (path : List Char) : List Char :=
  let root := posixRoot path
  let parts := (splitSlash path).filter (fun comp => comp ≠ [] ∧ comp ≠ ['.'])
  let s := root ++ List.intercalate ['/'] parts
  if s = [] then ['.'] else s

/-- `PurePosixPath.is_absolute`: the parsed path has a root. -/
def purePosixIsAbsolute (path : List Char) : Bool :=
  decide (posixRoot path ≠ [])

/-- `SandboxProvider.normalize_path` (provider.py lines 51-59) on character
lists: an absolute path whose rendering starts with `base` is normalised in
place; any other absolute path gets `base` prepended (string concatenation,
the path already starts with a slash) before normalisation; a relative path
is joined under `base` with a slash and normalised. -/
def normalize_path_chars (file_path : List Char) (base : List Char) : List Char :=
  let pstr := purePosixStr file_path
  if purePosixIsAbsolute file_path && base.isPrefixOf pstr then
    normpathChars pstr
  else if purePosixIsAbsolute file_path then
    normpathChars (base ++ pstr)
  else
    normpathChars (base ++ ['/'] ++ pstr)

/-- `SandboxProvider.normalize_path` on strings. -/
def normalize_path (file_path : String) (base : String) : String :=
  String.mk (normalize_path_chars file_path.data base.data)

/-- The sandbox home used as the default `base` of `normalize_path`. -/
def userHome : String := "/home/user"

/-- `LocalDockerProvider.write_file` (provider.py lines 786-806) writes to
`self.normalize_path(path)` inside the container. -/
def write_file_target (path : String) : String := normalize_path path userHome

/-- `LocalDockerProvider.read_file` (provider.py lines 824-845) reads from
`self.normalize_path(path)` inside the container. -/
def read_file_target (path : String) : String := normalize_path path userHome

/-- C10: `normalize_path` re-roots every path under the sandbox home: an
absolute path whose rendering already starts with "/home/user" is only
normalised; any other absolute path gets "/home/user" prepended before
normalisation — so an operation on "/etc/passwd" targets
"/home/user/etc/passwd", not "/etc/passwd" — and a relative path is joined
under "/home/user" and normalised; the provider's file read and write
operations both target exactly this normalised path. -/
theorem normalize_path_reroots_under_home :
    (∀ p : String, purePosixIsAbsolute p.data = true →
      ("/home/user".data.isPrefixOf (purePosixStr p.data)) = true →
      normalize_path p userHome = String.mk (normpathChars (purePosixStr p.data))) ∧
    (∀ p : String, purePosixIsAbsolute p.data = true →
      ("/home/user".data.isPrefixOf (purePosixStr p.data)) = false →
      normalize_path p userHome =
        String.mk (normpathChars ("/home/user".data ++ purePosixStr p.data))) ∧
    (∀ p : String, purePosixIsAbsolute p.data = false →
      normalize_path p userHome =
        String.mk (normpathChars ("/home/user".data ++ ['/'] ++ purePosixStr p.data))) ∧
    normalize_path "/etc/passwd" userHome = "/home/user/etc/passwd" ∧
    normalize_path "/home/user/projects/app.py" userHome =
      "/home/user/projects/app.py" ∧
    normalize_path "notes/todo.txt" userHome = "/home/user/notes/todo.txt" ∧
    (∀ p : String, write_file_target p = normalize_path p userHome ∧
      read_file_target p = normalize_path p userHome) := by
  refine ⟨?_, ?_, ?_, by decide, by decide, by decide, fun p => ⟨rfl, rfl⟩⟩
  · intro p h1 h2
    simp [normalize_path, normalize_path_chars, userHome, h1, h2]
  · intro p h1 h2
    simp [normalize_path, normalize_path_chars, userHome, h1, h2]
  · intro p h1
    simp [normalize_path, normalize_path_chars, userHome, h1]

/-- Witness for C10: the already-home-rooted absolute path
"/home/user/a.txt" is only normalised. -/
theorem normalize_path_reroots_under_home_witness :
    normalize_path "/home/user/a.txt" userHome =
      String.mk (normpathChars (purePosixStr "/home/user/a.txt".data)) :=
  normalize_path_reroots_under_home.1 "/home/user/a.txt" (by decide) (by decide)

/-! ### Durable stream replay and live tailing
(`_replay_stream_backlog`, `_stream_live_redis_events`,
`_create_event_stream`; `app/api/endpoints/chat.py`) -/

/-- One entry of the per-chat durable Redis stream. Redis stream ids are
totally ordered and strictly increasing within a stream; they are modelled
as naturals (with `0` standing for the minimal id `0-0`). `kind` and
`payload` are the entry's fields (`fields.get("kind", "content")`,
`fields.get("payload", "") or ""`, both total here). -/
structure LogEntry where
  entry_id : Nat
  kind : String
  payload : String
deriving Repr, DecidableEq

/-- Terminal event kinds: membership in the literal set
`{"complete", "error"}` checked by both streaming phases. -/
def isTerminalKind (kind : String) : Bool :=
  kind == "complete" || kind == "error"

/-- One item yielded to the SSE client: the log id it carries (the synthetic
cancelled completion carries none), the event name and the data string. -/
structure SSEItem where
  sid : Option Nat
  event : String
  data : String
deriving Repr, DecidableEq

/-- The `formatted` dict built from a stream entry (chat.py lines 120-124 and
180-184). -/
def formatEntry (e : LogEntry) : SSEItem := ⟨some e.entry_id, e.kind, e.payload⟩

/-- Redis `XRANGE stream min max` with the exclusive min cursor used by the
replay phase (`min = "(<cursor>)"`, or `-` for no cursor, chat.py line 200):
on the id-sorted stream this returns exactly the entries with id strictly
greater than the cursor, in id order. -/
def xrange_after (log : List LogEntry) (cursor : Option Nat) : List LogEntry :=
  match cursor with
  | none => log
  | some c => log.filter (fun e => c < e.entry_id)

/-- `_replay_stream_backlog` (chat.py lines 107-127) applied to the fetched
backlog: yields each entry formatted, returning right after the first
terminal entry. -/
def replay_stream_backlog : List LogEntry → List SSEItem
  | [] => []
  | e :: rest =>
      if isTerminalKind e.kind then [formatEntry e]
      else formatEntry e :: replay_stream_backlog rest

/-- The per-entry body of the XREAD polling loop of
`_stream_live_redis_events` (chat.py lines 176-189): an entry equal to the
current cursor is skipped, every other entry is yielded and advances the
cursor, and a terminal entry ends the stream right after being yielded. -/
def live_loop (lastId : Nat) : List LogEntry → List SSEItem
  | [] => []
  | e :: rest =>
      if e.entry_id = lastId then live_loop lastId rest
      else if isTerminalKind e.kind then [formatEntry e]
      else formatEntry e :: live_loop e.entry_id rest

/-- The synthetic cancelled completion
(`json.dumps({"status": "cancelled"})`, chat.py lines 144-147). -/
def cancelledItem : SSEItem := ⟨none, "complete", "\x7b\"status\": \"cancelled\"\x7d"⟩

/-- `_stream_live_redis_events` (chat.py lines 130-189) against the final
contents of the log: with the revoked flag or cancel event set it emits the
synthetic cancelled completion; otherwise the repeated XREAD polls walk the
entries past `lastId` in order (the model yields nothing further once a
terminal-free suffix is exhausted, where the coroutine would keep
polling). -/
def stream_live_redis_events (finalLog : List LogEntry) (lastId : Nat)
    (cancelled : Bool) : List SSEItem :=
  if cancelled then [cancelledItem]
  else live_loop lastId (finalLog.filter (fun e => lastId < e.entry_id))

/-- Cursor position after the replay phase (chat.py lines 201-210): the id of
the last replayed item, else the client's cursor, else `0-0`. -/
def lastIdAfterReplay (replayed : List SSEItem) (cursor : Option Nat) : Nat :=
  match replayed.getLast? with
  | some item => item.sid.getD 0
  | none => cursor.getD 0

/-- `_create_event_stream` (chat.py lines 192-229): two-phase streaming for a
client connecting while the durable log holds `durable`, against a log that
has grown to `finalLog` by the time the live phase polls. The backlog past
the cursor is replayed first; if it produced a terminal item the stream
returns without ever starting the live phase; otherwise the live phase
tails the log from the last position seen. -/
def create_event_stream (durable finalLog : List LogEntry)
    (lastEventId : Option Nat) (cancelled : Bool) : List SSEItem :=
  let replayed := replay_stream_backlog (xrange_after durable lastEventId)
  if replayed.any (fun item => isTerminalKind item.event) then replayed
  else replayed ++
    stream_live_redis_events finalLog (lastIdAfterReplay replayed lastEventId)
      cancelled

/-- Entries with strictly increasing ids (the Redis stream invariant). -/
def IdSorted (l : List LogEntry) : Prop :=
  l.Pairwise (fun a b => a.entry_id < b.entry_id)

instance (l : List LogEntry) : Decidable (IdSorted l) :=
  show Decidable (l.Pairwise (fun a b => a.entry_id < b.entry_id)) from
    inferInstance

/-- On an id-sorted log, keeping the entries past the id found at position
`j` keeps exactly the entries after position `j`. -/
theorem filter_gt_get : ∀ (l : List LogEntry), IdSorted l →
    ∀ (j : Nat) (hj : j < l.length),
      l.filter (fun e => (l.get ⟨j, hj⟩).entry_id < e.entry_id) = l.drop (j + 1) := by
  intro l
  induction l with
  | nil => intro _ j hj; exact absurd hj (Nat.not_lt_zero j)
  | cons a tl ih =>
    intro hs j hj
    obtain ⟨ha, htl⟩ := List.pairwise_cons.mp hs
    cases j with
    | zero =>
      have hself : ¬ (a.entry_id < a.entry_id) := Nat.lt_irrefl _
      have htlfull : tl.filter (fun e => a.entry_id < e.entry_id) = tl :=
        List.filter_eq_self.mpr (fun e he => by simpa using ha e he)
      simpa [List.filter_cons, hself] using htlfull
    | succ j2 =>
      have hj2 : j2 < tl.length := by simpa using hj
      have hhead : ¬ ((tl.get ⟨j2, hj2⟩).entry_id < a.entry_id) := by
        have := ha (tl.get ⟨j2, hj2⟩) (List.get_mem tl j2 hj2)
        omega
      have hrec := ih htl j2 hj2
      show List.filter (fun e => decide ((tl.get ⟨j2, hj2⟩).entry_id < e.entry_id))
          (a :: tl) = tl.drop (j2 + 1)
      rw [List.filter_cons, if_neg (by simpa using hhead)]
      exact hrec

/-- The take-`m` variant: entries of the durable prefix past the id at
position `j` of the full log are exactly the prefix entries after position
`j`. -/
theorem filter_take_gt_get (L : List LogEntry) (hs : IdSorted L) (j : Nat)
    (hj : j < L.length) (m : Nat) :
    (L.take m).filter (fun e => (L.get ⟨j, hj⟩).entry_id < e.entry_id) =
      (L.take m).drop (j + 1) := by
  by_cases hm : j < m
  · have hj2 : j < (L.take m).length := by
      rw [List.length_take]; omega
    have hget : (L.take m).get ⟨j, hj2⟩ = L.get ⟨j, hj⟩ := by
      simp [List.get_eq_getElem, List.getElem_take]
    have hsub : IdSorted (L.take m) :=
      List.Pairwise.sublist (List.take_sublist m L) hs
    rw [← hget]
    exact filter_gt_get (L.take m) hsub j hj2
  · have hnil : (L.take m).filter
        (fun e => (L.get ⟨j, hj⟩).entry_id < e.entry_id) = [] := by
      apply List.filter_eq_nil_iff.mpr
      intro e he hgt
      obtain ⟨i, hi, rfl⟩ := List.mem_iff_getElem.mp he
      have hi2 : i < min m L.length := by simpa [List.length_take] using hi
      have hilen : i < m := lt_of_lt_of_le hi2 (Nat.min_le_left m L.length)
      have hiL : i < L.length := lt_of_lt_of_le hi2 (Nat.min_le_right m L.length)
      have hEq : (L.take m)[i] = L[i] := List.getElem_take L
      have hij : i < j := by omega
      have hgt2 : (L.get ⟨j, hj⟩).entry_id < L[i].entry_id := by
        simpa [hEq] using hgt
      have hlt : L[i].entry_id < L[j].entry_id :=
        List.pairwise_iff_getElem.mp hs i j hiL hj hij
      have hj3 : (L.get ⟨j, hj⟩).entry_id = L[j].entry_id := rfl
      omega
    have hdrop : (L.take m).drop (j + 1) = [] := by
      apply List.drop_eq_nil_of_le
      rw [List.length_take]
      omega
    rw [hnil, hdrop]

/-- Replaying a backlog with no terminal entry yields every entry. -/
theorem replay_backlog_no_terminal : ∀ (es : List LogEntry),
    (∀ e ∈ es, isTerminalKind e.kind = false) →
    replay_stream_backlog es = es.map formatEntry := by
  intro es
  induction es with
  | nil => intro _; rfl
  | cons e rest ih =>
    intro h
    have he : isTerminalKind e.kind = false := h e (List.mem_cons_self e rest)
    have := ih (fun x hx => h x (List.mem_cons_of_mem e hx))
    simp [replay_stream_backlog, he, this]

/-- Replaying a backlog made of non-terminal entries, a first terminal entry
and anything after yields the prefix and the terminal entry, nothing
more. -/
theorem replay_backlog_first_terminal : ∀ (es : List LogEntry)
    (t : LogEntry) (rest : List LogEntry),
    (∀ e ∈ es, isTerminalKind e.kind = false) → isTerminalKind t.kind = true →
    replay_stream_backlog (es ++ t :: rest) =
      es.map formatEntry ++ [formatEntry t] := by
  intro es
  induction es with
  | nil =>
    intro t rest _ ht
    simp [replay_stream_backlog, ht]
  | cons e es2 ih =>
    intro t rest h ht
    have he : isTerminalKind e.kind = false := h e (List.mem_cons_self e es2)
    have := ih t rest (fun x hx => h x (List.mem_cons_of_mem e hx)) ht
    simp [replay_stream_backlog, he, this]

/-- On an id-sorted list whose entries all lie past the cursor, the live
polling loop never skips and behaves exactly like backlog replay. -/
theorem live_loop_eq_replay : ∀ (l : List LogEntry), IdSorted l →
    ∀ c, (∀ e ∈ l, c < e.entry_id) →
    live_loop c l = replay_stream_backlog l := by
  intro l
  induction l with
  | nil => intro _ c _; rfl
  | cons e rest ih =>
    intro hs c hc
    obtain ⟨he, hrest⟩ := List.pairwise_cons.mp hs
    have hne : ¬ (e.entry_id = c) := by
      have := hc e (List.mem_cons_self e rest)
      omega
    by_cases ht : isTerminalKind e.kind = true
    · simp [live_loop, replay_stream_backlog, hne, ht]
    · have ht2 : isTerminalKind e.kind = false := by simpa using ht
      have := ih hrest e.entry_id he
      simp [live_loop, replay_stream_backlog, hne, ht2, this]

/-- C1: resume correctness. For a durable log holding `N` non-terminal
events `es` of one execution attempt followed by a terminal entry `t` (ids
strictly increasing, no trimming), a reader that consumed the events up to
position `j` and reconnects with that event's log id as its cursor receives
exactly the events after position `j` and then the terminal event — no
duplicates, no gaps — whatever prefix `take m` of the log is durable at
reconnect time (the rest being served by the live XREAD phase after the
backlog is exhausted without a terminal entry). -/
theorem resume_replays_exactly_the_missed_events (es : List LogEntry)
    (t : LogEntry) (j m : Nat)
    (hsorted : IdSorted (es ++ [t]))
    (hes : ∀ e ∈ es, isTerminalKind e.kind = false)
    (ht : isTerminalKind t.kind = true)
    (hj : j < es.length) :
    create_event_stream ((es ++ [t]).take m) (es ++ [t])
        (some ((es.get ⟨j, hj⟩).entry_id)) false =
      (es.drop (j + 1)).map formatEntry ++ [formatEntry t] := by
  have hjL : j < (es ++ [t]).length := by simp; omega
  have hgetL : (es ++ [t]).get ⟨j, hjL⟩ = es.get ⟨j, hj⟩ := by
    simp [List.get_eq_getElem]
    exact List.getElem_append_left hj
  have hbacklog : ((es ++ [t]).take m).filter
      (fun e => (es.get ⟨j, hj⟩).entry_id < e.entry_id) =
        ((es ++ [t]).take m).drop (j + 1) := by
    have := filter_take_gt_get (es ++ [t]) hsorted j hjL m
    rwa [hgetL] at this
  have hfiltL : (es ++ [t]).filter
      (fun e => (es.get ⟨j, hj⟩).entry_id < e.entry_id) =
        (es ++ [t]).drop (j + 1) := by
    have := filter_gt_get (es ++ [t]) hsorted j hjL
    rwa [hgetL] at this
  by_cases hm : (es ++ [t]).length ≤ m
  · -- the whole log, terminal included, is durable at reconnect time
    have htake : (es ++ [t]).take m = es ++ [t] := List.take_of_length_le hm
    have hdropL : (es ++ [t]).drop (j + 1) = es.drop (j + 1) ++ [t] :=
      List.drop_append_of_le_length (by omega)
    have hany : ((es.drop (j + 1)).map formatEntry ++ [formatEntry t]).any
        (fun item => isTerminalKind item.event) = true := by
      simp [List.any_append, formatEntry, ht]
    rw [create_event_stream, xrange_after, htake, hfiltL, hdropL,
      replay_backlog_first_terminal (es.drop (j + 1)) t []
        (fun e he => hes e (List.mem_of_mem_drop he)) ht, if_pos hany]
  · -- only a prefix of the events is durable; the rest arrives live
    have hmN : m ≤ es.length := by
      simp at hm
      omega
    have htakeL : (es ++ [t]).take m = es.take m :=
      List.take_append_of_le_length hmN
    have hfiltES : (es.take m).filter
        (fun e => (es.get ⟨j, hj⟩).entry_id < e.entry_id) =
          (es.take m).drop (j + 1) := by
      rw [← htakeL]
      exact hbacklog
    have hnt : ∀ e ∈ (es.take m).drop (j + 1), isTerminalKind e.kind = false :=
      fun e he => hes e (List.mem_of_mem_take (List.mem_of_mem_drop he))
    have hreplay : replay_stream_backlog ((es.take m).drop (j + 1)) =
        ((es.take m).drop (j + 1)).map formatEntry :=
      replay_backlog_no_terminal _ hnt
    have hnoterm : (((es.take m).drop (j + 1)).map formatEntry).any
        (fun item => isTerminalKind item.event) = false := by
      rw [Bool.eq_false_iff]
      intro hcontra
      obtain ⟨x, hx, hpx⟩ := List.any_eq_true.mp hcontra
      obtain ⟨e, he, rfl⟩ := List.mem_map.mp hx
      simp [formatEntry, hnt e he] at hpx
    have hstep1 : create_event_stream ((es ++ [t]).take m) (es ++ [t])
        (some ((es.get ⟨j, hj⟩).entry_id)) false =
        ((es.take m).drop (j + 1)).map formatEntry ++
          stream_live_redis_events (es ++ [t])
            (lastIdAfterReplay (((es.take m).drop (j + 1)).map formatEntry)
              (some ((es.get ⟨j, hj⟩).entry_id))) false := by
      rw [create_event_stream, xrange_after, htakeL, hfiltES, hreplay,
        if_neg (by rw [hnoterm]; exact Bool.false_ne_true)]
    rw [hstep1]
    by_cases hmj : m ≤ j + 1
    · -- the durable prefix holds nothing past the cursor: pure live tail
      have hbempty : (es.take m).drop (j + 1) = [] := by
        apply List.drop_eq_nil_of_le
        rw [List.length_take]
        omega
      rw [hbempty]
      have hlast : lastIdAfterReplay (([] : List LogEntry).map formatEntry)
          (some ((es.get ⟨j, hj⟩).entry_id)) = (es.get ⟨j, hj⟩).entry_id := rfl
      rw [hlast]
      have hlive : stream_live_redis_events (es ++ [t])
          ((es.get ⟨j, hj⟩).entry_id) false =
          (es.drop (j + 1)).map formatEntry ++ [formatEntry t] := by
        rw [stream_live_redis_events, if_neg (by exact Bool.false_ne_true)]
        rw [hfiltL]
        have hsub : IdSorted ((es ++ [t]).drop (j + 1)) :=
          List.Pairwise.sublist (List.drop_sublist (j + 1) (es ++ [t])) hsorted
        have hmem : ∀ e ∈ (es ++ [t]).drop (j + 1),
            (es.get ⟨j, hj⟩).entry_id < e.entry_id := by
          intro e he
          rw [← hfiltL] at he
          simpa using List.of_mem_filter he
        rw [live_loop_eq_replay _ hsub _ hmem]
        rw [List.drop_append_of_le_length (by omega)]
        exact replay_backlog_first_terminal (es.drop (j + 1)) t []
          (fun e he => hes e (List.mem_of_mem_drop he)) ht
      rw [hlive]
      rfl
    · -- part of the missed events replays, the rest arrives live
      have hm1 : m - 1 < es.length := by omega
      have hm1L : m - 1 < (es ++ [t]).length := by simp; omega
      have htkm : es.take m = es.take (m - 1) ++ [es.get ⟨m - 1, hm1⟩] := by
        have hm0 : m = (m - 1) + 1 := by omega
        conv_lhs => rw [hm0]
        rw [List.take_succ]
        congr
        rw [List.getElem?_eq_getElem hm1]
        rfl
      have hbacklog2 : (es.take m).drop (j + 1) =
          (es.take (m - 1)).drop (j + 1) ++ [es.get ⟨m - 1, hm1⟩] := by
        rw [htkm]
        apply List.drop_append_of_le_length
        rw [List.length_take]
        omega
      rw [hbacklog2, List.map_append]
      simp only [List.map_cons, List.map_nil]
      have hlast : lastIdAfterReplay
          (((es.take (m - 1)).drop (j + 1)).map formatEntry ++
            [formatEntry (es.get ⟨m - 1, hm1⟩)])
          (some ((es.get ⟨j, hj⟩).entry_id)) =
            (es.get ⟨m - 1, hm1⟩).entry_id := by
        rw [lastIdAfterReplay, List.getLast?_concat]
        rfl
      rw [hlast]
      have hgetm : (es ++ [t]).get ⟨m - 1, hm1L⟩ = es.get ⟨m - 1, hm1⟩ := by
        simp [List.get_eq_getElem]
        exact List.getElem_append_left hm1
      have hfiltm : (es ++ [t]).filter
          (fun e => (es.get ⟨m - 1, hm1⟩).entry_id < e.entry_id) =
            (es ++ [t]).drop m := by
        have := filter_gt_get (es ++ [t]) hsorted (m - 1) hm1L
        rw [hgetm] at this
        have hmm : m - 1 + 1 = m := by omega
        rwa [hmm] at this
      have hlive : stream_live_redis_events (es ++ [t])
          ((es.get ⟨m - 1, hm1⟩).entry_id) false =
          (es.drop m).map formatEntry ++ [formatEntry t] := by
        rw [stream_live_redis_events, if_neg (by exact Bool.false_ne_true)]
        rw [hfiltm]
        have hsub : IdSorted ((es ++ [t]).drop m) :=
          List.Pairwise.sublist (List.drop_sublist m (es ++ [t])) hsorted
        have hmem : ∀ e ∈ (es ++ [t]).drop m,
            (es.get ⟨m - 1, hm1⟩).entry_id < e.entry_id := by
          intro e he
          rw [← hfiltm] at he
          simpa using List.of_mem_filter he
        rw [live_loop_eq_replay _ hsub _ hmem]
        rw [List.drop_append_of_le_length hmN]
        exact replay_backlog_first_terminal (es.drop m) t []
          (fun e he => hes e (List.mem_of_mem_drop he)) ht
      rw [hlive]
      have hsplitdrop : (es.take (m - 1)).drop (j + 1) ++
          [es.get ⟨m - 1, hm1⟩] ++ es.drop m = es.drop (j + 1) := by
        rw [← hbacklog2]
        rw [List.drop_take]
        have hdd : es.drop m = ((es.drop (j + 1)).drop (m - (j + 1))) := by
          rw [List.drop_drop]
          congr 1
          omega
        rw [hdd, List.take_append_drop]
      calc ((es.take (m - 1)).drop (j + 1)).map formatEntry ++
            [formatEntry (es.get ⟨m - 1, hm1⟩)] ++
            ((es.drop m).map formatEntry ++ [formatEntry t])
          = (((es.take (m - 1)).drop (j + 1)) ++ [es.get ⟨m - 1, hm1⟩] ++
              es.drop m).map formatEntry ++ [formatEntry t] := by
            simp [List.map_append, List.append_assoc]
        _ = (es.drop (j + 1)).map formatEntry ++ [formatEntry t] := by
            rw [hsplitdrop]

/-- Witness for C1: a log of three content events (ids 1, 2, 3) and a
terminal completion (id 4), a reader that consumed event 1 and reconnects
with cursor 1 while only the first two entries are durable: it receives
events 2 and 3 and the completion — 2 via backlog replay, 3 and the
completion via the live phase. -/
theorem resume_replays_exactly_the_missed_events_witness :
    create_event_stream
        (([⟨1, "content", "a"⟩, ⟨2, "content", "b"⟩, ⟨3, "content", "c"⟩,
          ⟨4, "complete", ""⟩] : List LogEntry).take 2)
        [⟨1, "content", "a"⟩, ⟨2, "content", "b"⟩, ⟨3, "content", "c"⟩,
          ⟨4, "complete", ""⟩]
        (some 1) false =
      [⟨some 2, "content", "b"⟩, ⟨some 3, "content", "c"⟩,
        ⟨some 4, "complete", ""⟩] := by
  have h := resume_replays_exactly_the_missed_events
    [⟨1, "content", "a"⟩, ⟨2, "content", "b"⟩, ⟨3, "content", "c"⟩]
    ⟨4, "complete", ""⟩ 0 2 (by decide) (by decide) (by decide) (by decide)
  exact h.trans (by decide)

/-- C2: whenever the backlog past the client's cursor consists of
non-terminal entries, a first terminal entry and anything after, the event
stream yields exactly those backlog entries in log order up to and
including that terminal entry and terminates — independently of the
eventual log contents and of any cancellation, so the live XREAD phase is
never entered; in particular, for the fresh log
`[content "a" (id 1), complete (id 2)]` a client with no cursor receives
exactly the content event then the complete event. -/
theorem backlog_terminal_stops_stream_before_live_phase :
    (∀ (durable finalLog : List LogEntry) (cursor : Option Nat)
      (cancelled : Bool) (pre : List LogEntry) (t : LogEntry)
      (rest : List LogEntry),
      xrange_after durable cursor = pre ++ t :: rest →
      (∀ e ∈ pre, isTerminalKind e.kind = false) →
      isTerminalKind t.kind = true →
      create_event_stream durable finalLog cursor cancelled =
        pre.map formatEntry ++ [formatEntry t]) ∧
    create_event_stream
        [⟨1, "content", "a"⟩, ⟨2, "complete", ""⟩]
        [⟨1, "content", "a"⟩, ⟨2, "complete", ""⟩] none false =
      [⟨some 1, "content", "a"⟩, ⟨some 2, "complete", ""⟩] := by
  constructor
  · intro durable finalLog cursor cancelled pre t rest hsplit hpre ht
    have hreplay : replay_stream_backlog (xrange_after durable cursor) =
        pre.map formatEntry ++ [formatEntry t] := by
      rw [hsplit]
      exact replay_backlog_first_terminal pre t rest hpre ht
    have hany : (pre.map formatEntry ++ [formatEntry t]).any
        (fun item => isTerminalKind item.event) = true := by
      simp [List.any_append, formatEntry, ht]
    rw [create_event_stream, hreplay, if_pos hany]
  · decide

/-- Witness for C2 at a concrete input that makes the no-live-phase
consequence visible: even with the cancel flag set and an empty final log
(the live phase would emit a synthetic cancelled completion or nothing),
the stream is exactly the backlog up to its terminal entry. -/
theorem backlog_terminal_stops_stream_before_live_phase_witness :
    create_event_stream
        [⟨1, "content", "a"⟩, ⟨2, "complete", ""⟩] [] none true =
      [⟨some 1, "content", "a"⟩, ⟨some 2, "complete", ""⟩] :=
  (backlog_terminal_stops_stream_before_live_phase.1
    [⟨1, "content", "a"⟩, ⟨2, "complete", ""⟩] [] none true
    [⟨1, "content", "a"⟩] ⟨2, "complete", ""⟩ []
    (by decide) (by decide) (by decide)).trans (by decide)

/-! ### Docker exec stream framing
(`DockerSandboxTransport._read_socket_data`, transport.py lines 589-641) -/

/-- `DEFAULT_MAX_BUFFER_SIZE` (transport.py line 29). -/
def DEFAULT_MAX_BUFFER_SIZE : Nat := 1024 * 1024 * 10

/-- Big-endian 32-bit length from frame-header bytes 4..7
(`int.from_bytes(buffer[4:8], byteorder="big")`). -/
def beLen (b4 b5 b6 b7 : Nat) : Nat := ((b4 * 256 + b5) * 256 + b6) * 256 + b7

/-- The payload length declared by the frame header at the buffer head. -/
def frameDeclaredLen (buffer : List Nat) : Nat :=
  beLen (buffer.getD 4 0) (buffer.getD 5 0) (buffer.getD 6 0) (buffer.getD 7 0)

/-- State of the socket reader: the reassembly byte buffer, the decoded
stdout payloads put on the transport's stdout queue, and the stderr payloads
forwarded to the stderr callback. Payloads stay as byte lists (their UTF-8
decoding with replacement is downstream of the framing logic). -/
structure SocketReaderState where
  buffer : List Nat
  stdout_chunks : List (List Nat)
  stderr_chunks : List (List Nat)
deriving Repr, DecidableEq

/-- The inner frame-reassembly loop (`while len(buffer) >= 8`, transport.py
lines 612-635), run to quiescence on the current buffer (the fuel is an
upper bound on the number of frames; each completed frame consumes at least
8 bytes). A declared frame length above `maxBuf` clears the whole buffer
and leaves the loop; an incomplete frame waits for more data; a complete
frame is routed by its stream-type byte (1 = stdout; 2 = stderr, kept only
when a stderr callback is configured; anything else dropped). -/
def process_frames (maxBuf : Nat) (stderrCb : Bool) :
    Nat → SocketReaderState → SocketReaderState
  | 0, st => st
  | fuel + 1, st =>
      if 8 ≤ st.buffer.length then
        let stream_type := st.buffer.headD 0
        let frame_size := frameDeclaredLen st.buffer
        if maxBuf < frame_size then { st with buffer := [] }
        else if st.buffer.length < 8 + frame_size then st
        else
          let payload := (st.buffer.drop 8).take frame_size
          let rest := st.buffer.drop (8 + frame_size)
          let st2 : SocketReaderState :=
            if stream_type = 1 then
              ⟨rest, st.stdout_chunks ++ [payload], st.stderr_chunks⟩
            else if stream_type = 2 ∧ stderrCb then
              ⟨rest, st.stdout_chunks, st.stderr_chunks ++ [payload]⟩
            else ⟨rest, st.stdout_chunks, st.stderr_chunks⟩
          process_frames maxBuf stderrCb fuel st2
      else st

/-- One outer-loop iteration of `_read_socket_data`: append the received
chunk to the buffer and run the frame loop. -/
def read_socket_step (maxBuf : Nat) (stderrCb : Bool)
    (st : SocketReaderState) (data : List Nat) : SocketReaderState :=
  let st1 : SocketReaderState :=
    ⟨st.buffer ++ data, st.stdout_chunks, st.stderr_chunks⟩
  process_frames maxBuf stderrCb st1.buffer.length st1

/-- `_read_socket_data` (transport.py lines 589-641) over the sequence of
byte chunks the socket delivers. The select timeouts, empty-read draining
and the final sentinel are liveness machinery with no effect on the decoded
data and are not modelled. -/
def read_socket_data (maxBuf : Nat) (stderrCb : Bool)
    (recvs : List (List Nat)) : SocketReaderState :=
  recvs.foldl (read_socket_step maxBuf stderrCb) ⟨[], [], []⟩

/-- A buffer whose first frame header declares a length above the limit is
silently cleared in one step: no error, no payload, nothing kept. -/
theorem process_frames_oversized (maxBuf : Nat) (stderrCb : Bool)
    (fuel : Nat) (st : SocketReaderState)
    (hlen : 8 ≤ st.buffer.length)
    (hsize : maxBuf < frameDeclaredLen st.buffer) :
    process_frames maxBuf stderrCb (fuel + 1) st =
      ⟨[], st.stdout_chunks, st.stderr_chunks⟩ := by
  simp [process_frames, hlen, hsize]

/-- C6 (amended, framing half): a received chunk whose first frame header
declares a length above the limit is swallowed whole — the reader clears
its buffer, surfaces no error, and the run continues on the remaining
chunks exactly as if the oversized chunk had never arrived. -/
theorem oversized_frame_silently_dropped (maxBuf : Nat) (stderrCb : Bool)
    (h : List Nat) (cs : List (List Nat))
    (hlen : 8 ≤ h.length)
    (hsize : maxBuf < frameDeclaredLen h) :
    read_socket_data maxBuf stderrCb (h :: cs) =
      read_socket_data maxBuf stderrCb cs := by
  rw [read_socket_data, read_socket_data, List.foldl_cons]
  have hstep : read_socket_step maxBuf stderrCb ⟨[], [], []⟩ h = ⟨[], [], []⟩ := by
    simp only [read_socket_step, List.nil_append]
    have hlen2 : h.length = (h.length - 1) + 1 := by omega
    rw [hlen2]
    rw [process_frames_oversized maxBuf stderrCb (h.length - 1)
      ⟨h, [], []⟩ hlen hsize]
  rw [hstep]

/-- C6 counterexample: with the default 10 MiB limit, a frame header
declaring 10485761 bytes (one over the limit) followed in a later read by a
well-formed two-byte stdout frame leaves the reader with no error channel
touched and the later frame's payload delivered: the oversized framing was
silently discarded while the attempt continued, not surfaced as a typed
decode error. -/
theorem oversized_frame_counterexample :
    frameDeclaredLen [1, 0, 0, 0, 0, 160, 0, 1] = DEFAULT_MAX_BUFFER_SIZE + 1 ∧
    read_socket_data DEFAULT_MAX_BUFFER_SIZE false
        [[1, 0, 0, 0, 0, 160, 0, 1], [1, 0, 0, 0, 0, 0, 0, 2, 104, 105]] =
      ⟨[], [[104, 105]], []⟩ := by
  constructor
  · decide
  · decide

/-! ### Python `json` scanner
(the decoder behind `json.JSONDecoder.raw_decode` and `json.loads`, used by
`BaseSandboxTransport._parse_json_buffer` / `_parse_cli_output`) -/

/-- The opening brace character. -/
def lbrace : Char := Char.ofNat 123

/-- The closing brace character. -/
def rbrace : Char := Char.ofNat 125

/-- JSON whitespace (`[ \t\n\r]`). -/
def isJsonWS (c : Char) : Bool := c = ' ' ∨ c = '\t' ∨ c = '\n' ∨ c = '\r'

/-- Skip JSON whitespace. -/
def jsonSkipWS (l : List Char) : List Char := l.dropWhile isJsonWS

/-- A decoded JSON value. Numbers keep their literal text (the embedded code
never computes with them; python floats are not modelled). Object members
are kept in python-dict insertion order with unique keys (a duplicate key
overwrites in place). -/
inductive JsonValue where
  | jnull
  | jbool (b : Bool)
  | jnum (lit : List Char)
  | jstr (s : List Char)
  | jarr (items : List JsonValue)
  | jobj (members : List (List Char × JsonValue))

/-- Python-dict insertion: an existing key keeps its position and takes the
new value; a new key is appended. -/
def objInsert (ms : List (List Char × JsonValue)) (k : List Char)
    (v : JsonValue) : List (List Char × JsonValue) :=
  if ms.any (fun p => p.1 = k) then
    ms.map (fun p => if p.1 = k then (k, v) else p)
  else ms ++ [(k, v)]

/-- Value of one hex digit. -/
def hexDigitVal (c : Char) : Option Nat :=
  if '0' ≤ c ∧ c ≤ '9' then some (c.toNat - '0'.toNat)
  else if 'a' ≤ c ∧ c ≤ 'f' then some (c.toNat - 'a'.toNat + 10)
  else if 'A' ≤ c ∧ c ≤ 'F' then some (c.toNat - 'A'.toNat + 10)
  else none

/-- Four hex digits (`_decode_uXXXX`). -/
def hex4 (a b c d : Char) : Option Nat := do
  let va ← hexDigitVal a
  let vb ← hexDigitVal b
  let vc ← hexDigitVal c
  let vd ← hexDigitVal d
  return ((va * 16 + vb) * 16 + vc) * 16 + vd

/-- The single-character escapes of `py_scanstring` (`BACKSLASH`). -/
def simpleEscape (c : Char) : Option Char :=
  if c = '"' then some '"'
  else if c = '\\' then some '\\'
  else if c = '/' then some '/'
  else if c = 'b' then some (Char.ofNat 8)
  else if c = 'f' then some (Char.ofNat 12)
  else if c = 'n' then some '\n'
  else if c = 'r' then some '\r'
  else if c = 't' then some '\t'
  else none

/-- A character from a `\uXXXX` code unit. Python keeps lone surrogates in
its strings; Lean characters cannot carry them, so a lone surrogate maps to
U+FFFD (only reachable on inputs spelling lone escaped surrogates). -/
def charFromCode (n : Nat) : Char :=
  if 0xD800 ≤ n ∧ n ≤ 0xDFFF then Char.ofNat 0xFFFD else Char.ofNat n

/-- `py_scanstring` after the opening quote, in strict mode: literal control
characters below 0x20 are rejected, the listed escapes and `\uXXXX` (with
surrogate-pair combining) are decoded, an unterminated string or invalid
escape fails. Returns the decoded contents and the input after the closing
quote. Every step consumes at least one input character, so the fuel
`length + 1` supplied by `scanString` never runs out. -/
def scanStringAux : Nat → List Char → List Char →
    Option (List Char × List Char)
  | 0, _, _ => none
  | _ + 1, _, [] => none
  | fuel + 1, acc, c :: rest =>
      if c = '"' then some (acc.reverse, rest)
      else if c = '\\' then
        match rest with
        | [] => none
        | 'u' :: a :: b :: c2 :: d :: rest3 =>
            match hex4 a b c2 d with
            | none => none
            | some n =>
                if 0xD800 ≤ n ∧ n ≤ 0xDBFF then
                  match rest3 with
                  | '\\' :: 'u' :: a2 :: b2 :: c3 :: d2 :: rest4 =>
                      match hex4 a2 b2 c3 d2 with
                      | none => none
                      | some n2 =>
                          if 0xDC00 ≤ n2 ∧ n2 ≤ 0xDFFF then
                            scanStringAux fuel
                              (Char.ofNat (0x10000 + (n - 0xD800) * 0x400 +
                                (n2 - 0xDC00)) :: acc) rest4
                          else
                            scanStringAux fuel (charFromCode n :: acc)
                              ('\\' :: 'u' :: a2 :: b2 :: c3 :: d2 :: rest4)
                  | _ => scanStringAux fuel (charFromCode n :: acc) rest3
                else scanStringAux fuel (charFromCode n :: acc) rest3
        | 'u' :: _ => none
        | e :: rest2 =>
            match simpleEscape e with
            | some ch => scanStringAux fuel (ch :: acc) rest2
            | none => none
      else if c.toNat < 0x20 then none
      else scanStringAux fuel (c :: acc) rest

/-- `py_scanstring` after the opening quote. -/
def scanString (l : List Char) : Option (List Char × List Char) :=
  scanStringAux (l.length + 1) [] l

/-- The number regex of the scanner:
`(-?(0|[1-9][0-9]*))(\.[0-9]+)?([eE][-+]?[0-9]+)?`, returning the matched
literal and the rest; fails when no number starts here. -/
def scanNumber (l : List Char) : Option (List Char × List Char) :=
  let (negPart, l1) :=
    match l with
    | '-' :: r => (['-'], r)
    | _ => (([] : List Char), l)
  match l1 with
  | [] => none
  | c :: _ =>
      if ¬ c.isDigit then none
      else
        let (intPart, l2) :=
          if c = '0' then (['0'], l1.drop 1)
          else (l1.takeWhile Char.isDigit, l1.dropWhile Char.isDigit)
        let (fracPart, l3) :=
          match l2 with
          | '.' :: r =>
              let ds := r.takeWhile Char.isDigit
              if ds = [] then (([] : List Char), l2)
              else ('.' :: ds, r.dropWhile Char.isDigit)
          | _ => (([] : List Char), l2)
        let (expPart, l4) :=
          match l3 with
          | e :: r =>
              if e = 'e' ∨ e = 'E' then
                let (sgn, r2) :=
                  match r with
                  | s :: r3 =>
                      if s = '+' ∨ s = '-' then ([s], r3)
                      else (([] : List Char), r)
                  | [] => (([] : List Char), r)
                let ds := r2.takeWhile Char.isDigit
                if ds = [] then (([] : List Char), l3)
                else (e :: (sgn ++ ds), r2.dropWhile Char.isDigit)
              else (([] : List Char), l3)
          | [] => (([] : List Char), l3)
        some (negPart ++ intPart ++ fracPart ++ expPart, l4)

mutual

/-- `py_scan_once`: dispatch on the first character — string, object, array,
the `null`/`true`/`false` literals, a number, or the non-strict constants
`NaN`/`Infinity`/`-Infinity`; no leading whitespace is accepted. The fuel
bounds nesting and iteration; `rawDecode` passes enough for any input. -/
def scanOnce : Nat → List Char → Option (JsonValue × List Char)
  | 0, _ => none
  | fuel + 1, l =>
      match l with
      | [] => none
      | '"' :: rest =>
          match scanString rest with
          | some (s, r) => some (.jstr s, r)
          | none => none
      | 'n' :: 'u' :: 'l' :: 'l' :: rest => some (.jnull, rest)
      | 't' :: 'r' :: 'u' :: 'e' :: rest => some (.jbool true, rest)
      | 'f' :: 'a' :: 'l' :: 's' :: 'e' :: rest => some (.jbool false, rest)
      | c :: rest =>
          if c = lbrace then parseObjectStart fuel rest
          else if c = '[' then parseArrayStart fuel rest
          else
            match scanNumber l with
            | some (lit, r) => some (.jnum lit, r)
            | none =>
                match l with
                | 'N' :: 'a' :: 'N' :: r => some (.jnum ['N', 'a', 'N'], r)
                | 'I' :: 'n' :: 'f' :: 'i' :: 'n' :: 'i' :: 't' :: 'y' :: r =>
                    some (.jnum ('I' :: 'n' :: 'f' :: 'i' :: 'n' :: 'i' :: 't'
                      :: 'y' :: []), r)
                | '-' :: 'I' :: 'n' :: 'f' :: 'i' :: 'n' :: 'i' :: 't' :: 'y'
                    :: r =>
                    some (.jnum ('-' :: 'I' :: 'n' :: 'f' :: 'i' :: 'n' :: 'i'
                      :: 't' :: 'y' :: []), r)
                | _ => none

/-- `JSONObject` from right after the opening brace: optional whitespace,
then either the closing brace (empty object) or the first key's opening
quote. -/
def parseObjectStart : Nat → List Char → Option (JsonValue × List Char)
  | 0, _ => none
  | fuel + 1, l =>
      let l1 := jsonSkipWS l
      match l1 with
      | c :: rest =>
          if c = rbrace then some (.jobj [], rest)
          else if c = '"' then parseObjectMembers fuel [] rest
          else none
      | [] => none

/-- The member loop of `JSONObject`, entered right after a key's opening
quote: key string, optional whitespace, colon, optional whitespace, value,
optional whitespace, then a closing brace or a comma followed by optional
whitespace and the next key's opening quote. -/
def parseObjectMembers : Nat → List (List Char × JsonValue) → List Char →
    Option (JsonValue × List Char)
  | 0, _, _ => none
  | fuel + 1, acc, l =>
      match scanString l with
      | none => none
      | some (key, r1) =>
          match jsonSkipWS r1 with
          | ':' :: r3 =>
              let r4 := jsonSkipWS r3
              match scanOnce fuel r4 with
              | none => none
              | some (v, r5) =>
                  let acc2 := objInsert acc key v
                  match jsonSkipWS r5 with
                  | c :: r7 =>
                      if c = rbrace then some (.jobj acc2, r7)
                      else if c = ',' then
                        match jsonSkipWS r7 with
                        | '"' :: r9 => parseObjectMembers fuel acc2 r9
                        | _ => none
                      else none
                  | [] => none
          | _ => none

/-- `JSONArray` from right after the opening bracket: optional whitespace,
then either the closing bracket (empty array) or the item loop. -/
def parseArrayStart : Nat → List Char → Option (JsonValue × List Char)
  | 0, _ => none
  | fuel + 1, l =>
      let l1 := jsonSkipWS l
      match l1 with
      | ']' :: rest => some (.jarr [], rest)
      | _ => parseArrayItems fuel [] l1

/-- The item loop of `JSONArray`: value, optional whitespace, then a closing
bracket or a comma followed by optional whitespace and the next value. -/
def parseArrayItems : Nat → List JsonValue → List Char →
    Option (JsonValue × List Char)
  | 0, _, _ => none
  | fuel + 1, acc, l =>
      match scanOnce fuel l with
      | none => none
      | some (v, r1) =>
          let acc2 := acc ++ [v]
          match jsonSkipWS r1 with
          | c :: r3 =>
              if c = ']' then some (.jarr acc2, r3)
              else if c = ',' then parseArrayItems fuel acc2 (jsonSkipWS r3)
              else none
          | [] => none

end

/-- `JSONDecoder.raw_decode` at index 0: scan one value, returning it and
the remaining input; no leading whitespace is accepted. The fuel
`length + 2` dominates any possible nesting and iteration count (every
recursive descent and loop step consumes input). -/
def rawDecode (s : List Char) : Option (JsonValue × List Char) :=
  scanOnce (s.length + 2) s

/-- `json.loads`: skip leading whitespace, scan one value, and require only
whitespace after it; `None` models both decode errors and "Extra data". -/
def jsonLoads (s : List Char) : Option JsonValue :=
  match rawDecode (s.dropWhile isJsonWS) with
  | some (v, rest) => if rest.dropWhile isJsonWS = [] then some v else none
  | none => none

/-! ### CLI output parsing
(`BaseSandboxTransport._parse_json_buffer` / `_parse_cli_output`,
transport.py lines 276-366) -/

/-- The escape character starting an ANSI sequence. -/
def escChar : Char := Char.ofNat 27

/-- Intermediate bytes `[0-?]` of the ANSI pattern. -/
def isAnsiInter (c : Char) : Bool := 0x30 ≤ c.toNat ∧ c.toNat ≤ 0x3F

/-- Trailing bytes (0x20 to 0x2F) of the ANSI pattern. -/
def isAnsiTrail (c : Char) : Bool := 0x20 ≤ c.toNat ∧ c.toNat ≤ 0x2F

/-- Final byte `[@-~]` of the ANSI pattern. -/
def isAnsiFinal (c : Char) : Bool := 0x40 ≤ c.toNat ∧ c.toNat ≤ 0x7E

/-- Match `ANSI_ESCAPE_RE` (transport.py line 31: escape, bracket, then
intermediate, trailing and final byte classes)
at the head of the input; the character classes are disjoint, so the match
is deterministic. Returns the input after the match. -/
def matchAnsi (l : List Char) : Option (List Char) :=
  match l with
  | e :: b :: rest =>
      if e = escChar ∧ b = '[' then
        match (rest.dropWhile isAnsiInter).dropWhile isAnsiTrail with
        | c :: r3 => if isAnsiFinal c then some r3 else none
        | [] => none
      else none
  | _ => none

/-- `re.sub` with the ANSI pattern: scan left to right, removing each
non-overlapping match; fuelled by the input length (each step consumes at
least one character). -/
def stripAnsiFuel : Nat → List Char → List Char
  | 0, l => l
  | _ + 1, [] => []
  | fuel + 1, c :: rest =>
      match matchAnsi (c :: rest) with
      | some r => stripAnsiFuel fuel r
      | none => c :: stripAnsiFuel fuel rest

/-- `ANSI_ESCAPE_RE.sub("", chunk)` (transport.py line 310). -/
def stripAnsi (l : List Char) : List Char := stripAnsiFuel l.length l

/-- `chunk.replace("\r", "")` (transport.py line 311). -/
def removeCR (l : List Char) : List Char := l.filter (fun c => c ≠ '\r')

/-- The cleaning applied to every stdout chunk before line splitting. -/
def cleanChunk (l : List Char) : List Char := removeCR (stripAnsi l)

/-- Python `str.split(sep)` for a one-character separator. -/
def splitOnChar (sep : Char) : List Char → List (List Char)
  | [] => [[]]
  | c :: cs =>
      let rest := splitOnChar sep cs
      if c = sep then [] :: rest
      else
        match rest with
        | [] => [[c]]
        | h :: t => (c :: h) :: t

/-- Python `str.isspace` over the ASCII whitespace characters (the inputs
handled here are ASCII; python additionally strips rarer unicode
whitespace). -/
def pyIsSpace (c : Char) : Bool :=
  c = ' ' ∨ c = '\t' ∨ c = '\n' ∨ c = '\r' ∨ c = Char.ofNat 11 ∨
    c = Char.ofNat 12

/-- Python `str.strip()`. -/
def pyStrip (l : List Char) : List Char :=
  ((l.dropWhile pyIsSpace).reverse.dropWhile pyIsSpace).reverse

/-- Python `str.lstrip()`. -/
def pyLStrip (l : List Char) : List Char := l.dropWhile pyIsSpace

/-- The loop of `_parse_json_buffer` (transport.py lines 276-292): left-strip
the working text, greedily `raw_decode` one JSON value, collect it and
continue; on a decode failure stop, returning the (stripped) working text
and the values parsed so far. Fuelled by the buffer length (every decoded
value consumes at least one character). -/
def parse_json_buffer_loop : Nat → List Char → List JsonValue →
    List Char × List JsonValue
  | 0, working, msgs => (working, msgs)
  | fuel + 1, working, msgs =>
      if working = [] then (working, msgs)
      else
        let stripped := pyLStrip working
        match rawDecode stripped with
        | none => (stripped, msgs)
        | some (v, rest) => parse_json_buffer_loop fuel rest (msgs ++ [v])

/-- `BaseSandboxTransport._parse_json_buffer`. -/
def parse_json_buffer (buffer : List Char) : List Char × List JsonValue :=
  parse_json_buffer_loop (buffer.length + 1) buffer []

/-- The terminal check on a parsed message:
`isinstance(data, dict) and data.get("type") == "result"`. -/
def isResultMessage (v : JsonValue) : Bool :=
  match v with
  | .jobj ms =>
      match ms.find? (fun p => p.1 = ("type".data)) with
      | some p =>
          match p.2 with
          | .jstr s => s = ("result".data)
          | _ => false
      | none => false
  | _ => false

/-- The typed decode error (`CLIJSONDecodeError`) raised by
`_parse_cli_output`: the accumulated JSON buffer outgrew the limit while
appending the given line, or the residual buffered text was non-empty and
not valid JSON. -/
inductive CLIDecodeError where
  | buffer_overflow (line : List Char)
  | invalid_leftover (leftover : List Char)

/-- Parser state across lines: the JSON text buffer, the
preamble-skipped-yet flag, and the messages yielded so far. -/
structure CLIParseState where
  json_buffer : List Char
  json_started : Bool
  msgs : List JsonValue

/-- Yield parsed messages in order until (and including) the first `result`
message; returns the updated message list and whether parsing should
stop. -/
def yieldMessages (msgs : List JsonValue) : List JsonValue →
    List JsonValue × Bool
  | [] => (msgs, false)
  | v :: rest =>
      if isResultMessage v then (msgs ++ [v], true)
      else yieldMessages (msgs ++ [v]) rest

/-- How processing one line leaves the stream: keep going, stop (a `result`
message was yielded), or fail with a decode error. -/
inductive LineOutcome where
  | continue_ (st : CLIParseState)
  | stop (st : CLIParseState)
  | fail (st : CLIParseState) (err : CLIDecodeError)

/-- The per-line body of `_parse_cli_output` (transport.py lines 314-351):
strip the line; skip it when empty; while no JSON has started, skip the
line unless it contains a brace or bracket, cutting everything before the
first one; append to the buffer; fail when the buffer outgrows the limit;
parse complete values off the buffer, yielding them up to a terminal
`result` message; reset the started flag when values were parsed and the
buffer emptied. -/
def processLine (maxBuf : Nat) (st : CLIParseState) (rawLine : List Char) :
    LineOutcome :=
  let line := pyStrip rawLine
  if line = [] then .continue_ st
  else
    match
      if st.json_started then some line
      else
        match line.findIdx? (fun c => c = lbrace ∨ c = '[') with
        | none => none
        | some i => some (line.drop i)
    with
    | none => .continue_ st
    | some line2 =>
        let buf := st.json_buffer ++ line2
        if maxBuf < buf.length then
          .fail ⟨[], true, st.msgs⟩ (.buffer_overflow line2)
        else
          let (working, parsed) := parse_json_buffer buf
          let (msgs2, stopped) := yieldMessages st.msgs parsed
          if stopped then .stop ⟨[], true, msgs2⟩
          else
            let started2 := if ¬ parsed.isEmpty ∧ working.isEmpty then
              false else true
            .continue_ ⟨working, started2, msgs2⟩

/-- Process the lines of one chunk in order, short-circuiting on stop or
failure. -/
def processLines (maxBuf : Nat) (st : CLIParseState) :
    List (List Char) → LineOutcome
  | [] => .continue_ st
  | line :: rest =>
      match processLine maxBuf st line with
      | .continue_ st2 => processLines maxBuf st2 rest
      | .stop st2 => .stop st2
      | .fail st2 err => .fail st2 err

/-- Process the queued stdout chunks in order: clean each chunk, split it on
newlines and process the lines, short-circuiting on stop or failure. -/
def processChunks (maxBuf : Nat) (st : CLIParseState) :
    List (List Char) → LineOutcome
  | [] => .continue_ st
  | chunk :: rest =>
      match processLines maxBuf st (splitOnChar '\n' (cleanChunk chunk)) with
      | .continue_ st2 => processChunks maxBuf st2 rest
      | .stop st2 => .stop st2
      | .fail st2 err => .fail st2 err

/-- What the message consumer observes from `_parse_cli_output`
(transport.py lines 294-366) on a given chunk sequence: the messages
yielded in order, and the decode error raised afterwards, if any. -/
structure ParseCLIOutput where
  messages : List JsonValue
  error : Option CLIDecodeError

/-- `BaseSandboxTransport._parse_cli_output` over the stdout chunks of one
attempt (the sentinel ending the queue is the end of the list; the
`_exit_error` re-raise after the parse is outside this model): the per-line
loop until end, stop, or failure, then the final drain — parse and yield
whatever complete values remain in the buffer and, when the leftover text
is non-empty, validate it with `json.loads`, raising the typed decode
error when invalid. -/
def parse_cli_output (maxBuf : Nat) (chunks : List (List Char)) :
    ParseCLIOutput :=
  match processChunks maxBuf ⟨[], false, []⟩ chunks with
  | .fail st err => ⟨st.msgs, some err⟩
  | .stop st => ⟨st.msgs, none⟩
  | .continue_ st =>
      if st.json_buffer = [] then ⟨st.msgs, none⟩
      else
        let (leftover, parsed) := parse_json_buffer st.json_buffer
        let msgs2 := st.msgs ++ parsed
        if pyStrip leftover = [] then ⟨msgs2, none⟩
        else
          match jsonLoads leftover with
          | some _ => ⟨msgs2, none⟩
          | none => ⟨msgs2, some (.invalid_leftover leftover)⟩

/-- Join lines with single newlines (the shape of well-formed JSON-lines
CLI output). -/
def joinNL : List (List Char) → List Char
  | [] => []
  | [t] => t
  | t :: rest => t ++ '\n' :: joinNL rest

/-- The messages a consumer receives from a value sequence: everything up to
and including the first `result` message. -/
def takeUntilResult : List JsonValue → List JsonValue
  | [] => []
  | v :: rest =>
      if isResultMessage v then [v] else v :: takeUntilResult rest

/-- One line of well-formed CLI output: already stripped, non-empty,
starting with a brace or bracket, within the buffer limit, and parsing
completely into the (non-empty) value list `vsl`. -/
def LineIsValues (maxBuf : Nat) (t : List Char) (vsl : List JsonValue) :
    Prop :=
  pyStrip t = t ∧ t ≠ [] ∧ (t.headD ' ' = lbrace ∨ t.headD ' ' = '[') ∧
    t.length ≤ maxBuf ∧ parse_json_buffer t = ([], vsl) ∧ vsl ≠ []

/-- The ANSI matcher needs an escape character at the head. -/
theorem matchAnsi_eq_none (c : Char) (rest : List Char) (h : c ≠ escChar) :
    matchAnsi (c :: rest) = none := by
  cases rest with
  | nil => rfl
  | cons b r => simp [matchAnsi, h]

/-- Stripping ANSI sequences from escape-free text is the identity. -/
theorem stripAnsiFuel_eq_self : ∀ (fuel : Nat) (l : List Char),
    (∀ c ∈ l, c ≠ escChar) → stripAnsiFuel fuel l = l := by
  intro fuel
  induction fuel with
  | zero => intro l _; rfl
  | succ f ih =>
    intro l h
    cases l with
    | nil => rfl
    | cons c rest =>
      have hc : c ≠ escChar := h c (List.mem_cons_self c rest)
      rw [stripAnsiFuel, matchAnsi_eq_none c rest hc,
        ih rest (fun x hx => h x (List.mem_cons_of_mem c hx))]

/-- `stripAnsi` on escape-free text is the identity. -/
theorem stripAnsi_eq_self (l : List Char) (h : ∀ c ∈ l, c ≠ escChar) :
    stripAnsi l = l := stripAnsiFuel_eq_self l.length l h

/-- Cleaning CR-free, escape-free text is the identity. -/
theorem cleanChunk_eq_self (l : List Char)
    (h : ∀ c ∈ l, c ≠ escChar ∧ c ≠ '\r') : cleanChunk l = l := by
  rw [cleanChunk, stripAnsi_eq_self l (fun c hc => (h c hc).1)]
  exact List.filter_eq_self.mpr (fun c hc => by simp [(h c hc).2])

/-- Splitting a separator-free piece is the singleton split. -/
theorem splitOnChar_no_sep (sep : Char) : ∀ (t : List Char), sep ∉ t →
    splitOnChar sep t = [t] := by
  intro t
  induction t with
  | nil => intro _; rfl
  | cons c rest ih =>
    intro h
    have hc : c ≠ sep := fun hcc => h (hcc ▸ List.mem_cons_self c rest)
    have hrest := ih (fun hx => h (List.mem_cons_of_mem c hx))
    simp [splitOnChar, hc, hrest]

/-- Splitting after a separator-free piece followed by the separator peels
off that piece. -/
theorem splitOnChar_sep_append (sep : Char) : ∀ (t l : List Char), sep ∉ t →
    splitOnChar sep (t ++ sep :: l) = t :: splitOnChar sep l := by
  intro t
  induction t with
  | nil => intro l _; simp [splitOnChar]
  | cons c rest ih =>
    intro l h
    have hc : c ≠ sep := fun hcc => h (hcc ▸ List.mem_cons_self c rest)
    have hrest := ih l (fun hx => h (List.mem_cons_of_mem c hx))
    simp [splitOnChar, hc, hrest]

/-- Splitting newline-joined newline-free lines recovers the lines. -/
theorem splitOnChar_joinNL : ∀ (ts : List (List Char)), ts ≠ [] →
    (∀ t ∈ ts, ('\n' : Char) ∉ t) →
    splitOnChar '\n' (joinNL ts) = ts := by
  intro ts
  induction ts with
  | nil => intro h; exact absurd rfl h
  | cons t rest ih =>
    intro _ h
    cases rest with
    | nil =>
      show splitOnChar '\n' t = [t]
      exact splitOnChar_no_sep '\n' t (h t (List.mem_cons_self t []))
    | cons t2 rest2 =>
      show splitOnChar '\n' (t ++ '\n' :: joinNL (t2 :: rest2)) = t :: _
      rw [splitOnChar_sep_append '\n' t _ (h t (List.mem_cons_self t _))]
      rw [ih (List.cons_ne_nil t2 rest2)
        (fun x hx => h x (List.mem_cons_of_mem t hx))]

/-- Characters of a newline-join come from the lines or are newlines. -/
theorem mem_joinNL : ∀ (ts : List (List Char)) (c : Char), c ∈ joinNL ts →
    c = '\n' ∨ ∃ t ∈ ts, c ∈ t := by
  intro ts
  induction ts with
  | nil => intro c hc; exact absurd hc (List.not_mem_nil c)
  | cons t rest ih =>
    intro c hc
    cases rest with
    | nil => exact Or.inr ⟨t, List.mem_cons_self t [], hc⟩
    | cons t2 rest2 =>
      have : c ∈ t ++ '\n' :: joinNL (t2 :: rest2) := hc
      rcases List.mem_append.mp this with h1 | h2
      · exact Or.inr ⟨t, List.mem_cons_self t _, h1⟩
      · rcases List.mem_cons.mp h2 with h3 | h4
        · exact Or.inl h3
        · rcases ih c h4 with h5 | ⟨u, hu, hcu⟩
          · exact Or.inl h5
          · exact Or.inr ⟨u, List.mem_cons_of_mem t hu, hcu⟩

/-- `yieldMessages` appends the values up to and including the first
`result` message and reports whether one was found. -/
theorem yieldMessages_eq : ∀ (vsl : List JsonValue) (msgs : List JsonValue),
    yieldMessages msgs vsl =
      (msgs ++ takeUntilResult vsl, vsl.any isResultMessage) := by
  intro vsl
  induction vsl with
  | nil => intro msgs; simp [yieldMessages, takeUntilResult]
  | cons v rest ih =>
    intro msgs
    by_cases hv : isResultMessage v = true
    · simp [yieldMessages, takeUntilResult, hv]
    · have hv2 : isResultMessage v = false := by simpa using hv
      simp [yieldMessages, takeUntilResult, hv2, ih]

/-- The result cutoff distributes over append. -/
theorem takeUntilResult_append : ∀ (a b : List JsonValue),
    takeUntilResult (a ++ b) =
      if a.any isResultMessage then takeUntilResult a
      else a ++ takeUntilResult b := by
  intro a
  induction a with
  | nil => intro b; simp [takeUntilResult]
  | cons v rest ih =>
    intro b
    by_cases hv : isResultMessage v = true
    · simp [takeUntilResult, hv]
    · have hv2 : isResultMessage v = false := by simpa using hv
      by_cases hr : rest.any isResultMessage = true
      · simp [takeUntilResult, hv2, ih b, hr]
      · have hr2 : rest.any isResultMessage = false := by simpa using hr
        simp [takeUntilResult, hv2, ih b, hr2]

/-- A value list without a `result` message survives the cutoff intact. -/
theorem takeUntilResult_of_no_result : ∀ (a : List JsonValue),
    a.any isResultMessage = false → takeUntilResult a = a := by
  intro a
  induction a with
  | nil => intro _; rfl
  | cons v rest ih =>
    intro h
    have hv : isResultMessage v = false := by
      by_contra hc
      simp [Bool.not_eq_false] at hc
      simp [hc] at h
    have hrest : rest.any isResultMessage = false := by
      simp [List.any_cons, hv] at h
      simpa using h
    simp [takeUntilResult, hv, ih hrest]

/-- Processing one well-formed line from a clean state yields its values up
to the result cutoff: a line with a `result` message stops the stream, any
other leaves a clean state. -/
theorem processLine_values (maxBuf : Nat) (msgs : List JsonValue)
    (t : List Char) (vsl : List JsonValue)
    (hgood : LineIsValues maxBuf t vsl) :
    processLine maxBuf ⟨[], false, msgs⟩ t =
      (if vsl.any isResultMessage then
        LineOutcome.stop ⟨[], true, msgs ++ takeUntilResult vsl⟩
      else LineOutcome.continue_ ⟨[], false, msgs ++ takeUntilResult vsl⟩) := by
  obtain ⟨hstrip, hne, hhead, hlen, hparse, hvne⟩ := hgood
  cases t with
  | nil => exact absurd rfl hne
  | cons c t2 =>
    have hc : c = lbrace ∨ c = '[' := by simpa using hhead
    have hfind : (c :: t2).findIdx? (fun ch => ch = lbrace ∨ ch = '[') =
        some 0 := by
      rw [List.findIdx?_cons]
      simp [hc]
    have hnotlt : ¬ (maxBuf < (c :: t2).length) := Nat.not_lt.mpr hlen
    have hvE : vsl.isEmpty = false := by
      cases vsl with
      | nil => exact absurd rfl hvne
      | cons a l => rfl
    have hlen2 : t2.length + 1 ≤ maxBuf := by simpa using hlen
    by_cases hany : vsl.any isResultMessage = true
    · simp [processLine, hstrip, hne, hfind, hparse, yieldMessages_eq,
        hnotlt, hany, hc, hlen2]
    · have hany2 : vsl.any isResultMessage = false := by simpa using hany
      simp [processLine, hstrip, hne, hfind, hparse, yieldMessages_eq,
        hnotlt, hany2, hc, hvE, hlen2]

/-- Processing a sequence of well-formed lines from a clean state yields
exactly the concatenated values up to the result cutoff, ending in a clean
continue state or a stop. -/
theorem processLines_values (maxBuf : Nat) :
    ∀ (ts : List (List Char)) (vss : List (List JsonValue))
      (msgs : List JsonValue),
      List.Forall₂ (LineIsValues maxBuf) ts vss →
      processLines maxBuf ⟨[], false, msgs⟩ ts =
          .continue_ ⟨[], false, msgs ++ takeUntilResult vss.flatten⟩ ∨
        processLines maxBuf ⟨[], false, msgs⟩ ts =
          .stop ⟨[], true, msgs ++ takeUntilResult vss.flatten⟩ := by
  intro ts
  induction ts with
  | nil =>
    intro vss msgs hf
    cases hf
    left
    simp [processLines, takeUntilResult]
  | cons t ts2 ih =>
    intro vss msgs hf
    obtain ⟨vsl, vss2, hgood, hrest, rfl⟩ := List.forall₂_cons_left_iff.mp hf
    by_cases hany : vsl.any isResultMessage = true
    · right
      have hflat : takeUntilResult ((vsl :: vss2).flatten) =
          takeUntilResult vsl := by
        rw [List.flatten_cons, takeUntilResult_append, if_pos hany]
      rw [hflat]
      simp only [processLines]
      rw [processLine_values maxBuf msgs t vsl hgood, if_pos hany]
    · have hany2 : vsl.any isResultMessage = false := by simpa using hany
      have htu : takeUntilResult vsl = vsl :=
        takeUntilResult_of_no_result vsl hany2
      have hflat : takeUntilResult ((vsl :: vss2).flatten) =
          vsl ++ takeUntilResult vss2.flatten := by
        rw [List.flatten_cons, takeUntilResult_append,
          if_neg (by simp [hany2])]
      have hstep : processLines maxBuf ⟨[], false, msgs⟩ (t :: ts2) =
          processLines maxBuf ⟨[], false, msgs ++ vsl⟩ ts2 := by
        simp only [processLines]
        rw [processLine_values maxBuf msgs t vsl hgood,
          if_neg (by simp [hany2]), htu]
      rw [hstep, hflat]
      rcases ih vss2 (msgs ++ vsl) hrest with h | h
      · left
        rw [h]
        simp [List.append_assoc]
      · right
        rw [h]
        simp [List.append_assoc]

/-- A stopped chunk run is unaffected by further queued chunks. -/
theorem processChunks_stop_append (maxBuf : Nat) :
    ∀ (chunks : List (List Char)) (st0 : CLIParseState)
      (st : CLIParseState) (extra : List (List Char)),
      processChunks maxBuf st0 chunks = .stop st →
      processChunks maxBuf st0 (chunks ++ extra) = .stop st := by
  intro chunks
  induction chunks with
  | nil =>
    intro st0 st extra h
    exact absurd h (by simp [processChunks])
  | cons chunk rest ih =>
    intro st0 st extra h
    rw [List.cons_append]
    simp only [processChunks] at h ⊢
    cases hline : processLines maxBuf st0
        (splitOnChar '\n' (cleanChunk chunk)) with
    | continue_ st2 =>
      rw [hline] at h
      exact ih st2 st extra h
    | stop st2 =>
      rw [hline] at h
      exact h
    | fail st2 err =>
      rw [hline] at h
      simp at h

/-- C5: output parsing of the transport. Every chunk is cleaned — carriage
returns are removed, already-clean text passes through unchanged, and ANSI
colour codes are stripped (shown on a coloured chunk); a line holding no
brace or bracket before JSON has started is skipped without any state
change; a chunk of newline-joined complete JSON values yields exactly those
values, as one message each, cut off right after the first `result`
message; once a run has stopped on a `result` message, any further queued
chunks leave the consumer-visible outcome unchanged; and a non-empty
residual buffer that is not valid JSON raises the typed
`CLIJSONDecodeError` after yielding the prior messages. -/
theorem cli_output_parsing_behaviour :
    (∀ chunk : List Char, ('\r' : Char) ∉ cleanChunk chunk) ∧
    (∀ chunk : List Char, (∀ c ∈ chunk, c ≠ escChar ∧ c ≠ '\r') →
      cleanChunk chunk = chunk) ∧
    cleanChunk ("\x1B[31mhi\x1B[0m\r".data) = "hi".data ∧
    (∀ (maxBuf : Nat) (st : CLIParseState) (line : List Char),
      st.json_started = false →
      (∀ c ∈ pyStrip line, c ≠ lbrace ∧ c ≠ '[') →
      processLine maxBuf st line = .continue_ st) ∧
    (∀ (maxBuf : Nat) (ts : List (List Char)) (vss : List (List JsonValue)),
      List.Forall₂ (LineIsValues maxBuf) ts vss →
      (∀ t ∈ ts, ∀ c ∈ t, c ≠ escChar ∧ c ≠ '\r' ∧ c ≠ '\n') →
      parse_cli_output maxBuf [joinNL ts] =
        ⟨takeUntilResult vss.flatten, none⟩) ∧
    (∀ (maxBuf : Nat) (chunks extra : List (List Char)) (st : CLIParseState),
      processChunks maxBuf ⟨[], false, []⟩ chunks = .stop st →
      parse_cli_output maxBuf (chunks ++ extra) =
        parse_cli_output maxBuf chunks) ∧
    (∀ (maxBuf : Nat) (t : List Char), pyStrip t = t → t ≠ [] →
      (t.headD ' ' = lbrace ∨ t.headD ' ' = '[') →
      (∀ c ∈ t, c ≠ escChar ∧ c ≠ '\r' ∧ c ≠ '\n') →
      t.length ≤ maxBuf → rawDecode t = none →
      parse_cli_output maxBuf [t] = ⟨[], some (.invalid_leftover t)⟩) := by
  refine ⟨?_, ?_, by decide, ?_, ?_, ?_, ?_⟩
  · intro chunk h
    have := (List.mem_filter.mp h).2
    simp at this
  · intro chunk h
    exact cleanChunk_eq_self chunk h
  · intro maxBuf st line hstarted hco
    have hempty : pyStrip line = [] ∨ pyStrip line ≠ [] := em _
    rcases hempty with he | hne
    · simp [processLine, he]
    · have hfind : (pyStrip line).findIdx?
          (fun ch => decide (ch = lbrace) || decide (ch = '[')) = none := by
        apply List.findIdx?_eq_none_iff.mpr
        intro x hx
        have := hco x hx
        simp [this.1, this.2]
      simp [processLine, hne, hstarted, hfind]
  · intro maxBuf ts vss hf hchars
    cases hts : ts with
    | nil =>
      cases hts ▸ hf
      simp [parse_cli_output, processChunks, processLines, joinNL,
        cleanChunk, stripAnsi, stripAnsiFuel, removeCR, splitOnChar,
        processLine, pyStrip, takeUntilResult]
    | cons t0 ts2 =>
      subst hts
      have hclean : cleanChunk (joinNL (t0 :: ts2)) = joinNL (t0 :: ts2) := by
        apply cleanChunk_eq_self
        intro c hcmem
        rcases mem_joinNL (t0 :: ts2) c hcmem with hnl | ⟨u, hu, hcu⟩
        · subst hnl
          constructor
          · intro hcc
            have : ('\n' : Char).toNat = escChar.toNat := by rw [hcc]
            simp [escChar] at this
          · intro hcc
            have : ('\n' : Char).toNat = ('\r' : Char).toNat := by rw [hcc]
            simp at this
        · exact ⟨(hchars u hu c hcu).1, (hchars u hu c hcu).2.1⟩
      have hsplit : splitOnChar '\n' (joinNL (t0 :: ts2)) = t0 :: ts2 := by
        apply splitOnChar_joinNL (t0 :: ts2) (List.cons_ne_nil t0 ts2)
        intro u hu hnlmem
        exact (hchars u hu '\n' hnlmem).2.2 rfl
      have hlines := processLines_values maxBuf (t0 :: ts2) vss [] hf
      rw [parse_cli_output]
      simp only [processChunks, hclean, hsplit]
      rcases hlines with h | h
      · rw [h]
        simp [parse_cli_output]
      · rw [h]
        simp
  · intro maxBuf chunks extra st h
    rw [parse_cli_output, parse_cli_output,
      processChunks_stop_append maxBuf chunks ⟨[], false, []⟩ st extra h, h]
  · intro maxBuf t hstrip hne hhead hchars hlen hdec
    cases t with
    | nil => exact absurd rfl hne
    | cons c t2 =>
      have hc : c = lbrace ∨ c = '[' := by simpa using hhead
      have hcns : ¬ pyIsSpace c := by
        rcases hc with h | h <;> subst h <;> decide
      have hlstrip : pyLStrip (c :: t2) = c :: t2 := by
        simp [pyLStrip, List.dropWhile_cons, hcns]
      have hjson : (c :: t2).dropWhile isJsonWS = c :: t2 := by
        have : isJsonWS c = false := by
          rcases hc with h | h <;> subst h <;> decide
        simp [List.dropWhile_cons, this]
      have hpjb : parse_json_buffer (c :: t2) = (c :: t2, []) := by
        rw [parse_json_buffer]
        show parse_json_buffer_loop ((c :: t2).length + 1) (c :: t2) [] = _
        rw [List.length_cons]
        rw [parse_json_buffer_loop]
        simp [List.cons_ne_nil, hlstrip, hdec]
      have hfind : (c :: t2).findIdx? (fun ch => ch = lbrace ∨ ch = '[') =
          some 0 := by
        rw [List.findIdx?_cons]
        simp [hc]
      have hnotlt : ¬ (maxBuf < (c :: t2).length) := Nat.not_lt.mpr hlen
      have hclean : cleanChunk (c :: t2) = c :: t2 :=
        cleanChunk_eq_self _ (fun x hx => ⟨(hchars x hx).1, (hchars x hx).2.1⟩)
      have hsplit : splitOnChar '\n' (c :: t2) = [c :: t2] :=
        splitOnChar_no_sep '\n' _ (fun hx => (hchars '\n' hx).2.2 rfl)
      have hloads : jsonLoads (c :: t2) = none := by
        rw [jsonLoads, hjson, hdec]
      have hlen2 : t2.length + 1 ≤ maxBuf := by simpa using hlen
      have hline : processLine maxBuf ⟨[], false, []⟩ (c :: t2) =
          .continue_ ⟨c :: t2, true, []⟩ := by
        simp [processLine, hstrip, hne, hpjb, yieldMessages, hlen2, hc,
          takeUntilResult]
      have hchunks : processChunks maxBuf ⟨[], false, []⟩ [c :: t2] =
          .continue_ ⟨c :: t2, true, []⟩ := by
        simp only [processChunks, hclean, hsplit, processLines]
        rw [hline]
      rw [parse_cli_output, hchunks]
      simp [hpjb, hstrip, hne, hloads]

/-- Witness for C5: a chunk holding the lines `[1]`, an object of type
`result` and `[2]` yields the first value and the result message, and the
trailing line past the result cutoff is dropped. -/
theorem cli_output_parsing_behaviour_witness :
    parse_cli_output 100
        [joinNL ["[1]".data, "\x7b\"type\": \"result\"\x7d".data,
          "[2]".data]] =
      ⟨takeUntilResult
        ([[JsonValue.jarr [JsonValue.jnum "1".data]],
          [JsonValue.jobj [("type".data, JsonValue.jstr "result".data)]],
          [JsonValue.jarr [JsonValue.jnum "2".data]]] :
            List (List JsonValue)).flatten, none⟩ :=
  cli_output_parsing_behaviour.2.2.2.2.1 100
    ["[1]".data, "\x7b\"type\": \"result\"\x7d".data, "[2]".data]
    [[JsonValue.jarr [JsonValue.jnum "1".data]],
     [JsonValue.jobj [("type".data, JsonValue.jstr "result".data)]],
     [JsonValue.jarr [JsonValue.jnum "2".data]]]
    (List.Forall₂.cons
      ⟨rfl, by decide, Or.inr (by decide), by decide, rfl, by simp⟩
      (List.Forall₂.cons
        ⟨rfl, by decide, Or.inl (by decide), by decide, rfl, by simp⟩
        (List.Forall₂.cons
          ⟨rfl, by decide, Or.inr (by decide), by decide, rfl, by simp⟩
          List.Forall₂.nil)))
    (by decide)

/-- C6 (amended): oversized framing is handled asymmetrically. The JSON
text buffer limit is enforced as claimed — a line that would push the
accumulated buffer past the maximum is fatal to the attempt and surfaced as
the typed `buffer_overflow` decode error with no messages yielded. The
socket frame limit is not: a frame header declaring a payload length above
the maximum makes the reader clear its reassembly buffer and carry on with
the remaining reads as if the data had never arrived — silently swallowed,
with no error surfaced to the consumer. -/
theorem oversized_framing_behaviour :
    (∀ (maxBuf : Nat) (t : List Char),
      pyStrip t = t →
      (∀ c ∈ t, c ≠ escChar ∧ c ≠ '\x0d' ∧ c ≠ '\n') →
      t ≠ [] → (t.headD ' ' = lbrace ∨ t.headD ' ' = '[') →
      maxBuf < t.length →
      parse_cli_output maxBuf [t] =
        ⟨[], some (CLIDecodeError.buffer_overflow t)⟩) ∧
    (∀ (maxBuf : Nat) (stderrCb : Bool) (h : List Nat)
      (cs : List (List Nat)),
      8 ≤ h.length → maxBuf < frameDeclaredLen h →
      read_socket_data maxBuf stderrCb (h :: cs) =
        read_socket_data maxBuf stderrCb cs) := by
  constructor
  · intro maxBuf t hstrip hchars hne hhead hlt
    cases t with
    | nil => exact absurd rfl hne
    | cons c t2 =>
      have hc : c = lbrace ∨ c = '[' := by simpa using hhead
      have hclean : cleanChunk (c :: t2) = c :: t2 :=
        cleanChunk_eq_self _ (fun x hx => ⟨(hchars x hx).1, (hchars x hx).2.1⟩)
      have hsplit : splitOnChar '\n' (c :: t2) = [c :: t2] :=
        splitOnChar_no_sep '\n' _ (fun hx => (hchars '\n' hx).2.2 rfl)
      have hlt2 : maxBuf < t2.length + 1 := by simpa using hlt
      have hline : processLine maxBuf ⟨[], false, []⟩ (c :: t2) =
          .fail ⟨[], true, []⟩ (.buffer_overflow (c :: t2)) := by
        simp [processLine, hstrip, hne, hc, hlt2]
      have hchunks : processChunks maxBuf ⟨[], false, []⟩ [c :: t2] =
          .fail ⟨[], true, []⟩ (.buffer_overflow (c :: t2)) := by
        simp only [processChunks, hclean, hsplit, processLines]
        rw [hline]
      rw [parse_cli_output, hchunks]
  · intro maxBuf stderrCb h cs hlen hsize
    exact oversized_frame_silently_dropped maxBuf stderrCb h cs hlen hsize

/-- Witness for C6: with a buffer limit of 2, the single line `[1]` is
rejected as a typed buffer overflow before any parsing. -/
theorem oversized_framing_behaviour_witness :
    parse_cli_output 2 ["[1]".data] =
      ⟨[], some (CLIDecodeError.buffer_overflow "[1]".data)⟩ :=
  oversized_framing_behaviour.1 2 "[1]".data rfl (by decide) (by decide)
    (by decide) (by decide)

/-! ### `_build_command`
(transport.py lines 174-274): rendering the structured options record into
the CLI invocation. The `ClaudeAgentOptions` record mirrors the SDK options
object as `_build_command` consumes it; strings are `List Char`, `None`
becomes `none`, and Python truthiness of strings, lists and ints is
explicit. -/

/-- A lowercase hexadecimal digit. -/
def hexCharLower (n : Nat) : Char :=
  if n < 10 then Char.ofNat (48 + n) else Char.ofNat (87 + n)

/-- Four lowercase hex digits, most significant first. -/
def hex4Out (n : Nat) : List Char :=
  [hexCharLower (n / 4096 % 16), hexCharLower (n / 256 % 16),
   hexCharLower (n / 16 % 16), hexCharLower (n % 16)]

/-- `json.dumps` escaping of one character (`ensure_ascii=True` default):
quote, backslash and the short control escapes by name, other control and
all non-ASCII characters as `\uXXXX` (astral characters as a surrogate
pair). -/
def jsonEscapeChar (c : Char) : List Char :=
  if c = '"' then ['\\', '"']
  else if c = '\\' then ['\\', '\\']
  else if c = '\n' then ['\\', 'n']
  else if c = Char.ofNat 9 then ['\\', 't']
  else if c = Char.ofNat 13 then ['\\', 'r']
  else if c = Char.ofNat 8 then ['\\', 'b']
  else if c = Char.ofNat 12 then ['\\', 'f']
  else if c.toNat < 32 then '\\' :: 'u' :: hex4Out c.toNat
  else if c.toNat < 127 then [c]
  else if c.toNat < 65536 then '\\' :: 'u' :: hex4Out c.toNat
  else
    ('\\' :: 'u' :: hex4Out (55296 + (c.toNat - 65536) / 1024)) ++
      ('\\' :: 'u' :: hex4Out (56320 + (c.toNat - 65536) % 1024))

mutual

/-- Compact `json.dumps` with Python's default separators (`", "` between
items, `": "` after a key). -/
def jsonDumps : JsonValue → List Char
  | .jnull => "null".data
  | .jbool true => "true".data
  | .jbool false => "false".data
  | .jnum lit => lit
  | .jstr s => '"' :: s.flatMap jsonEscapeChar ++ ['"']
  | .jarr items =>
      '[' :: List.intercalate ", ".data (jsonDumpsItems items) ++ "]".data
  | .jobj ms =>
      lbrace :: List.intercalate ", ".data (jsonDumpsMembers ms) ++ [rbrace]

/-- The rendered items of a JSON array. -/
def jsonDumpsItems : List JsonValue → List (List Char)
  | [] => []
  | v :: rest => jsonDumps v :: jsonDumpsItems rest

/-- The rendered `"key": value` members of a JSON object. -/
def jsonDumpsMembers : List (List Char × JsonValue) → List (List Char)
  | [] => []
  | (k, v) :: rest =>
      ('"' :: k.flatMap jsonEscapeChar ++ "\": ".data ++ jsonDumps v) ::
        jsonDumpsMembers rest

end

/-- The `system_prompt` option: a plain string, or a preset reference with
an optional `append` text (a preset dict without an `append` key emits
nothing, per lines 182-189). -/
inductive SystemPromptSpec where
  | str (s : List Char)
  | preset (append : Option (List Char))

/-- The `mcp_servers` option: a name-to-config dict, or a path/string to a
config file. -/
inductive McpServersSpec where
  | dict (servers : List (List Char × JsonValue))
  | path (p : List Char)

/-- An SDK `AgentDefinition` dataclass value (fields in dataclass order, as
`asdict` yields them). -/
structure AgentDefinition where
  description : List Char
  prompt : List Char
  tools : Option (List (List Char))
  model : Option (List Char)

/-- The slice of the SDK options record that `_build_command` reads, in the
order the code reads it. -/
structure ClaudeAgentOptions where
  cli_path : Option (List Char)
  system_prompt : Option SystemPromptSpec
  allowed_tools : List (List Char)
  max_turns : Option Nat
  disallowed_tools : List (List Char)
  model : Option (List Char)
  permission_prompt_tool_name : Option (List Char)
  permission_mode : Option (List Char)
  continue_conversation : Bool
  resume : Option (List Char)
  settings : Option (List Char)
  add_dirs : List (List Char)
  mcp_servers : Option McpServersSpec
  include_partial_messages : Bool
  fork_session : Bool
  max_thinking_tokens : Option Nat
  agents : Option (List (List Char × AgentDefinition))
  setting_sources : Option (List (List Char))
  extra_args : List (List Char × Option (List Char))

/-- Python truthiness of an optional string. -/
def optStrTruthy : Option (List Char) → Bool
  | none => false
  | some s => !s.isEmpty

/-- A `if value:` guarded string option: flag plus value when truthy,
nothing when `None` or empty. -/
def seg_str (flag : List Char) : Option (List Char) → List (List Char)
  | none => []
  | some s => if s.isEmpty then [] else [flag, s]

/-- A `if value:` guarded int option rendered with `str(...)`: omitted when
`None` or zero. -/
def seg_nat (flag : List Char) : Option Nat → List (List Char)
  | none => []
  | some n => if n = 0 then [] else [flag, (Nat.repr n).data]

/-- A boolean option: the bare flag when true. -/
def seg_bool (flag : List Char) (b : Bool) : List (List Char) :=
  if b then [flag] else []

/-- `system_prompt` rendering (lines 178-189): a string always emits
`--system-prompt`; a preset emits `--append-system-prompt` only when its
`append` text is present. -/
def seg_system_prompt : Option SystemPromptSpec → List (List Char)
  | none => []
  | some (.str s) => ["--system-prompt".data, s]
  | some (.preset none) => []
  | some (.preset (some a)) => ["--append-system-prompt".data, a]

/-- `allowed_tools` (lines 191-192): comma-joined when non-empty. -/
def seg_allowed_tools (ts : List (List Char)) : List (List Char) :=
  if ts.isEmpty then []
  else ["--allowedTools".data, List.intercalate ",".data ts]

/-- `disallowed_tools` (lines 197-198). -/
def seg_disallowed_tools (ts : List (List Char)) : List (List Char) :=
  if ts.isEmpty then []
  else ["--disallowedTools".data, List.intercalate ",".data ts]

/-- `add_dirs` (lines 220-221): one `--add-dir` pair per directory. -/
def seg_add_dirs (ds : List (List Char)) : List (List Char) :=
  ds.flatMap (fun d => ["--add-dir".data, d])

/-- `config.get("type") == "sdk"` on a server config (line 227). -/
def isSdkConfig (config : JsonValue) : Bool :=
  match config with
  | .jobj ms =>
      match ms.lookup "type".data with
      | some (.jstr s) => s == "sdk".data
      | _ => false
  | _ => false

/-- One server config as passed to the CLI (lines 227-234): an sdk-typed
dict loses its `instance` key, anything else passes through. -/
def serverForCli (config : JsonValue) : JsonValue :=
  match config with
  | .jobj ms =>
      if isSdkConfig (.jobj ms) then
        .jobj (ms.filter (fun kv => !(kv.1 == "instance".data)))
      else .jobj ms
  | c => c

/-- `mcp_servers` (lines 223-240): a non-empty dict is rendered through
`json.dumps` under an `mcpServers` wrapper, a non-empty path/string is
passed as-is. -/
def seg_mcp_servers : Option McpServersSpec → List (List Char)
  | none => []
  | some (.dict servers) =>
      if servers.isEmpty then []
      else
        let servers2 := servers.map (fun kv => (kv.1, serverForCli kv.2))
        if servers2.isEmpty then []
        else ["--mcp-config".data,
          jsonDumps (.jobj [("mcpServers".data, .jobj servers2)])]
  | some (.path p) =>
      if p.isEmpty then [] else ["--mcp-config".data, p]

/-- `asdict(agent_def)` with the `None` fields dropped (line 255). -/
def agentToJson (a : AgentDefinition) : JsonValue :=
  .jobj (("description".data, .jstr a.description) ::
    ("prompt".data, .jstr a.prompt) ::
    ((match a.tools with
      | none => []
      | some ts => [("tools".data, .jarr (ts.map JsonValue.jstr))]) ++
     (match a.model with
      | none => []
      | some m => [("model".data, .jstr m)])))

/-- `agents` (lines 253-258): a non-empty dict is rendered through
`json.dumps`. -/
def seg_agents : Option (List (List Char × AgentDefinition)) →
    List (List Char)
  | none => []
  | some ags =>
      if ags.isEmpty then []
      else ["--agents".data,
        jsonDumps (.jobj (ags.map (fun kv => (kv.1, agentToJson kv.2))))]

/-- `setting_sources` (lines 260-265): the flag is emitted UNCONDITIONALLY
- the value is the comma-joined list when the field is not `None` and the
empty string when it is. -/
def seg_setting_sources : Option (List (List Char)) → List (List Char)
  | none => ["--setting-sources".data, []]
  | some srcs => ["--setting-sources".data, List.intercalate ",".data srcs]

/-- `extra_args` (lines 267-271): a `None`-valued entry is a bare flag, any
other is a flag-value pair. -/
def seg_extra_args (args : List (List Char × Option (List Char))) :
    List (List Char) :=
  args.flatMap (fun kv =>
    match kv.2 with
    | none => ["--".data ++ kv.1]
    | some v => ["--".data ++ kv.1, v])

/-- `str(cli_path) if cli_path else "claude"` (line 175). -/
def cliBinary (o : ClaudeAgentOptions) : List Char :=
  match o.cli_path with
  | some p => if p.isEmpty then "claude".data else p
  | none => "claude".data

/-- `_build_command` (lines 174-274): the argv list in source order. -/
def build_command (o : ClaudeAgentOptions) : List (List Char) :=
  [cliBinary o, "--output-format".data, "stream-json".data,
    "--verbose".data] ++
  seg_system_prompt o.system_prompt ++
  seg_allowed_tools o.allowed_tools ++
  seg_nat "--max-turns".data o.max_turns ++
  seg_disallowed_tools o.disallowed_tools ++
  seg_str "--model".data o.model ++
  seg_str "--permission-prompt-tool".data o.permission_prompt_tool_name ++
  seg_str "--permission-mode".data o.permission_mode ++
  seg_bool "--continue".data o.continue_conversation ++
  seg_str "--resume".data o.resume ++
  seg_str "--settings".data o.settings ++
  seg_add_dirs o.add_dirs ++
  seg_mcp_servers o.mcp_servers ++
  seg_bool "--include-partial-messages".data o.include_partial_messages ++
  seg_bool "--fork-session".data o.fork_session ++
  seg_nat "--max-thinking-tokens".data o.max_thinking_tokens ++
  seg_agents o.agents ++
  seg_setting_sources o.setting_sources ++
  seg_extra_args o.extra_args ++
  ["--input-format".data, "stream-json".data]

/-- A single-quote character. -/
def squote : Char := Char.ofNat 39

/-- A character `shlex.quote` leaves unquoted: ASCII alphanumerics,
underscore, at, percent, plus, equals, colon, comma, dot, slash, dash. -/
def shlexSafeChar (c : Char) : Bool :=
  (('a' ≤ c ∧ c ≤ 'z') ∨ ('A' ≤ c ∧ c ≤ 'Z') ∨ ('0' ≤ c ∧ c ≤ '9') ∨
    "_@%+=:,./-".data.contains c : Bool)

/-- `shlex.quote`: the empty string becomes a pair of single quotes, a safe
string passes through, anything else is single-quoted with embedded single
quotes spliced out. -/
def shlexQuote (s : List Char) : List Char :=
  if s.isEmpty then [squote, squote]
  else if s.all shlexSafeChar then s
  else squote ::
    (s.flatMap (fun c =>
      if c = squote then [squote, '"', squote, '"', squote] else [c])) ++
    [squote]

/-- `shlex.join`: the space-joined quoted argv (line 274). -/
def shlex_join (cmd : List (List Char)) : List Char :=
  List.intercalate " ".data (cmd.map shlexQuote)

/-- The SDK options record with every field at its default: everything
`None`, empty or false. -/
def defaultClaudeAgentOptions : ClaudeAgentOptions :=
  ⟨none, none, [], none, [], none, none, none, false, none, none, [],
    none, false, false, none, none, none, []⟩

/-- C8 counterexample: with every option at its default (`setting_sources`
is `None`), the built command still carries `--setting-sources` with an
empty value — the flag is not omitted — and the shell line rendered by
`shlex.join` shows it as an explicit empty argument. -/
theorem build_command_setting_sources_counterexample :
    defaultClaudeAgentOptions.setting_sources = none ∧
    build_command defaultClaudeAgentOptions =
      ["claude".data, "--output-format".data, "stream-json".data,
        "--verbose".data, "--setting-sources".data, [],
        "--input-format".data, "stream-json".data] ∧
    shlex_join (build_command defaultClaudeAgentOptions) =
      "claude --output-format stream-json --verbose --setting-sources ".data
        ++ [squote, squote] ++ " --input-format stream-json".data := by
  refine ⟨rfl, by decide, by decide⟩

/-- C8 (amended): the command line is a pure function of the options
record, decomposing into one segment per option field in source order.
Every option field other than `setting_sources` omits its flag entirely
when absent or `None` (the truthiness-guarded string and int fields also
omit it when the value is present but empty or zero, while a present
empty string is still passed through for an `isinstance`-checked string
`system_prompt`, a preset `append` and `extra_args` values). The
exception is `--setting-sources`: it is emitted unconditionally, with the
empty string as its value when the field is `None`, so every built
command contains that flag. -/
theorem build_command_flag_field_correspondence :
    (∀ o : ClaudeAgentOptions, build_command o =
      [cliBinary o, "--output-format".data, "stream-json".data,
        "--verbose".data] ++
      seg_system_prompt o.system_prompt ++
      seg_allowed_tools o.allowed_tools ++
      seg_nat "--max-turns".data o.max_turns ++
      seg_disallowed_tools o.disallowed_tools ++
      seg_str "--model".data o.model ++
      seg_str "--permission-prompt-tool".data
        o.permission_prompt_tool_name ++
      seg_str "--permission-mode".data o.permission_mode ++
      seg_bool "--continue".data o.continue_conversation ++
      seg_str "--resume".data o.resume ++
      seg_str "--settings".data o.settings ++
      seg_add_dirs o.add_dirs ++
      seg_mcp_servers o.mcp_servers ++
      seg_bool "--include-partial-messages".data
        o.include_partial_messages ++
      seg_bool "--fork-session".data o.fork_session ++
      seg_nat "--max-thinking-tokens".data o.max_thinking_tokens ++
      seg_agents o.agents ++
      seg_setting_sources o.setting_sources ++
      seg_extra_args o.extra_args ++
      ["--input-format".data, "stream-json".data]) ∧
    (∀ o : ClaudeAgentOptions,
      "--setting-sources".data ∈ build_command o) ∧
    (∀ (flag : List Char) (s : Option (List Char)),
      seg_str flag s = [] ↔ optStrTruthy s = false) ∧
    (∀ (flag : List Char) (v : List Char), v ≠ [] →
      seg_str flag (some v) = [flag, v]) ∧
    (∀ (flag : List Char) (n : Nat), n ≠ 0 →
      seg_nat flag (some n) = [flag, (Nat.repr n).data]) ∧
    (∀ flag : List Char, seg_nat flag none = [] ∧
      seg_nat flag (some 0) = []) ∧
    (∀ flag : List Char, seg_bool flag false = [] ∧
      seg_bool flag true = [flag]) ∧
    (seg_system_prompt none = [] ∧
      seg_system_prompt (some (.preset none)) = [] ∧
      (∀ s, seg_system_prompt (some (.str s)) =
        ["--system-prompt".data, s]) ∧
      (∀ a, seg_system_prompt (some (.preset (some a))) =
        ["--append-system-prompt".data, a])) ∧
    (seg_allowed_tools [] = [] ∧ seg_disallowed_tools [] = [] ∧
      seg_add_dirs [] = [] ∧ seg_mcp_servers none = [] ∧
      seg_mcp_servers (some (.dict [])) = [] ∧
      seg_mcp_servers (some (.path [])) = [] ∧
      seg_agents none = [] ∧ seg_agents (some []) = [] ∧
      seg_extra_args [] = []) ∧
    (∀ ts, ts ≠ [] → seg_allowed_tools ts =
      ["--allowedTools".data, List.intercalate ",".data ts]) ∧
    (∀ name : List Char,
      seg_extra_args [(name, none)] = ["--".data ++ name]) ∧
    (∀ (name v : List Char),
      seg_extra_args [(name, some v)] = ["--".data ++ name, v]) ∧
    (seg_setting_sources none = ["--setting-sources".data, []] ∧
      ∀ srcs, seg_setting_sources (some srcs) =
        ["--setting-sources".data, List.intercalate ",".data srcs]) := by
  refine ⟨fun o => rfl, ?_, ?_, ?_, ?_, fun flag => ⟨rfl, rfl⟩,
    fun flag => ⟨rfl, rfl⟩, ⟨rfl, rfl, fun s => rfl, fun a => rfl⟩,
    ⟨rfl, rfl, rfl, rfl, rfl, rfl, rfl, rfl, rfl⟩, ?_,
    fun name => rfl, fun name v => rfl,
    ⟨rfl, fun srcs => rfl⟩⟩
  · intro o
    cases h : o.setting_sources with
    | none => simp [build_command, seg_setting_sources, h]
    | some srcs => simp [build_command, seg_setting_sources, h]
  · intro flag s
    cases s with
    | none => simp [seg_str, optStrTruthy]
    | some v =>
      cases v with
      | nil => simp [seg_str, optStrTruthy]
      | cons c cs => simp [seg_str, optStrTruthy]
  · intro flag v hv
    cases v with
    | nil => exact absurd rfl hv
    | cons c cs => simp [seg_str]
  · intro flag n hn
    simp [seg_nat, hn]
  · intro ts hts
    cases ts with
    | nil => exact absurd rfl hts
    | cons t ts2 => simp [seg_allowed_tools]

/-- Witness for C8: a set `max_turns` of 3 renders as the flag with the
decimal value. -/
theorem build_command_flag_field_correspondence_witness :
    seg_nat "--max-turns".data (some 3) =
      ["--max-turns".data, "3".data] :=
  build_command_flag_field_correspondence.2.2.2.2.1
    "--max-turns".data 3 (by decide)

end Claudex
